import Mathlib

set_option maxHeartbeats 1600000

/-!
Shallow embedding of the Maxprod browser extension core: rule compilation,
open-tab reconciliation, host matching, the Reddit and YouTube in-page
decision logic, channel blocklist normalization and matching, the TTL
caches, and the reference-counted scroll lock.  Each definition is a direct
translation of the corresponding function in the extension source; the JS
string and array primitives the source relies on are embedded on character
lists so that every definition evaluates by kernel reduction.
-/

namespace Maxprod

/-- Character class removed by the JS trim method (the ASCII whitespace the
repository actually encounters). -/
def jsWhitespaceChar (c : Char) : Bool :=
  c == ' ' || c == '\t' || c == '\n' || c == '\r'

/-- Models the JS trim method: remove leading and trailing whitespace. -/
def jsTrim (s : String) : String :=
  String.mk (((s.data.dropWhile jsWhitespaceChar).reverse.dropWhile jsWhitespaceChar).reverse)

/-- Models the JS toLowerCase method (ASCII case folding, which is all the
source relies on). -/
def jsToLower (s : String) : String :=
  String.mk (s.data.map Char.toLower)

/-- Models the JS startsWith method. -/
def jsStartsWith (s pat : String) : Bool :=
  pat.data.isPrefixOf s.data

/-- Models the JS endsWith method. -/
def jsEndsWith (s pat : String) : Bool :=
  pat.data.isSuffixOf s.data

/-- Models the JS slice method with only a start index (drop the first n
characters). -/
def jsDrop (s : String) (n : Nat) : String :=
  String.mk (s.data.drop n)

/-- Accumulator-style splitting of a character list at a separator
character. -/
def splitCharAux (sep : Char) : List Char → List Char → List (List Char)
  | acc, [] => [acc.reverse]
  | acc, c :: cs =>
    if c == sep then acc.reverse :: splitCharAux sep [] cs
    else splitCharAux sep (c :: acc) cs

/-- Models the JS split method with a single-character separator. -/
def jsSplitChar (s : String) (sep : Char) : List String :=
  (splitCharAux sep [] s.data).map String.mk

/-- Helper for the JS includes method: needle occurs somewhere in the
haystack. -/
def containsNeedle (needle : List Char) : List Char → Bool
  | [] => needle.isEmpty
  | c :: cs => needle.isPrefixOf (c :: cs) || containsNeedle needle cs

/-- Models the JS includes method on strings (substring containment). -/
def jsIncludes (s needle : String) : Bool :=
  containsNeedle needle.data s.data

/-- Models the JS Array indexOf method, with its running index and -1 for a
missing element. -/
def jsIndexOfFrom (x : String) : List String → Int → Int
  | [], _ => -1
  | y :: ys, i => if y == x then i else jsIndexOfFrom x ys (i + 1)

/-- JS arr.indexOf(x): index of the first occurrence of x in arr, -1 when
absent. -/
def jsIndexOf (arr : List String) (x : String) : Int :=
  jsIndexOfFrom x arr 0

/-- Models the JS Array forEach / map pattern that also consumes the running
element index. -/
def forEachIdx {α β : Type} (f : Nat → α → β) : Nat → List α → List β
  | _, [] => []
  | i, x :: xs => f i x :: forEachIdx f (i + 1) xs

/-- Models the de-duplicating JS filter callback
(host, index, arr) =&gt; host and arr.indexOf(host) === index
used at lines 169 and 199 of the background script: keep only non-empty
first occurrences. -/
def filterUniqueAux (arr : List String) : Nat → List String → List String
  | _, [] => []
  | i, x :: xs =>
    if x != "" && jsIndexOf arr x == (i : Int) then x :: filterUniqueAux arr (i + 1) xs
    else filterUniqueAux arr (i + 1) xs

/-- The whole de-duplicating filter pass over an array. -/
def filterUnique (arr : List String) : List String :=
  filterUniqueAux arr 0 arr

/-! Rule model: background script lines 11 to 20 and 125 to 211. -/

inductive RuleAction where
  | block
  | allow
deriving DecidableEq

structure Rule where
  id : Nat
  priority : Nat
  action : RuleAction
  urlFilter : String
deriving DecidableEq

def RULE_OFFSETS_BLOCKED_HOSTS : Nat := 10000

def RULE_OFFSETS_REDDIT_BLOCK : Nat := 20000

def RULE_OFFSETS_ALLOWED_SUBREDDITS : Nat := 30000

def RULE_PRIORITIES_BLOCK : Nat := 1

def RULE_PRIORITIES_ALLOW : Nat := 100

/-- The host list appendBlockedHostRules iterates (background script lines
166 to 169): filter falsy entries, trim and lower-case, de-duplicate
keeping first occurrences. -/
def blockedHostListOf (hosts : List String) : List String :=
  filterUnique ((hosts.filter (fun h => h != "")).map (fun h => jsToLower (jsTrim h)))

/-- appendBlockedHostRules (background script lines 165 to 181): emit one
block rule per de-duplicated normalized host. -/
def appendBlockedHostRules (hosts : List String) : List Rule :=
  forEachIdx
    (fun index host =>
      ⟨RULE_OFFSETS_BLOCKED_HOSTS + index, RULE_PRIORITIES_BLOCK, RuleAction.block,
        "||" ++ host⟩)
    0 (blockedHostListOf hosts)

/-- normalizeSubreddit, first replace step: the regex that strips one
leading "/r/" or "r/" marker, case-insensitively in the r. -/
def stripSubredditMarker (s : String) : String :=
  match s.data with
  | '/' :: 'r' :: '/' :: rest => String.mk rest
  | '/' :: 'R' :: '/' :: rest => String.mk rest
  | 'r' :: '/' :: rest => String.mk rest
  | 'R' :: '/' :: rest => String.mk rest
  | _ => s

/-- normalizeSubreddit, second replace step: strip every trailing slash. -/
def dropTrailingSlashes (s : String) : String :=
  String.mk ((s.data.reverse.dropWhile (fun c => c == '/')).reverse)

/-- normalizeSubreddit (background script lines 684 to 691): trim, strip a
leading subreddit marker, strip trailing slashes, lower-case. -/
def normalizeSubreddit (input : String) : String :=
  jsToLower (dropTrailingSlashes (stripSubredditMarker (jsTrim input)))

/-- createRedditBlockRule (background script lines 183 to 193). -/
def createRedditBlockRule : Rule :=
  ⟨RULE_OFFSETS_REDDIT_BLOCK, RULE_PRIORITIES_BLOCK, RuleAction.block, "||reddit.com^"⟩

/-- The subreddit list appendAllowedSubredditRules iterates (lines 196 to
199): filter falsy entries, normalize, de-duplicate keeping first
occurrences. -/
def allowedSubredditListOf (subreddits : List String) : List String :=
  filterUnique ((subreddits.filter (fun s => s != "")).map normalizeSubreddit)

/-- appendAllowedSubredditRules (background script lines 195 to 211). -/
def appendAllowedSubredditRules (subreddits : List String) : List Rule :=
  forEachIdx
    (fun index sub =>
      ⟨RULE_OFFSETS_ALLOWED_SUBREDDITS + index, RULE_PRIORITIES_ALLOW, RuleAction.allow,
        "||reddit.com/r/" ++ sub⟩)
    0 (allowedSubredditListOf subreddits)

/-- The synced configuration record, with the loosely-typed boolean fields
already coerced: normalizeBoolean applied to an actual boolean is the
identity, so the typed embedding absorbs it. -/
structure StoredState where
  blockedHosts : List String
  allowedSubreddits : List String
  blockReddit : Bool
  extensionEnabled : Bool
  blockedYouTubeChannels : List String
deriving DecidableEq

/-- The argument updateAllRules hands to the declarative net request
facility. -/
structure RuleUpdate where
  removeRuleIds : List Nat
  addRules : List Rule
deriving DecidableEq

/-- updateAllRules (background script lines 125 to 163), as the rule-set
update it issues: always remove every existing dynamic rule id, and add the
freshly compiled rules, or none when the master switch is off.  (In the
disabled branch the source skips the update call when there is nothing to
remove; the resulting rule set is the same.) -/
def updateAllRules (state : StoredState) (existingRules : List Rule) : RuleUpdate :=
  let removeRuleIds := existingRules.map Rule.id
  if !state.extensionEnabled then ⟨removeRuleIds, []⟩
  else
    ⟨removeRuleIds,
      appendBlockedHostRules state.blockedHosts ++
        (if state.blockReddit then
          createRedditBlockRule :: appendAllowedSubredditRules state.allowedSubreddits
        else [])⟩

/-! Host matching and the open-tab sweep: background script lines 213 to
281 and 719 to 729. -/

/-- The replace step of normalizeHostForMatching: strip one leading
"www." marker. -/
def stripWwwMarker (s : String) : String :=
  if jsStartsWith s "www." then jsDrop s 4 else s

/-- normalizeHostForMatching (background script lines 719 to 729). -/
def normalizeHostForMatching (host : String) : String :=
  if host == "" then "" else stripWwwMarker (jsToLower (jsTrim host))

/-- The blocked-host set enforceOpenTabs builds (lines 216 to 221): filter
falsy raw entries, normalize, drop entries that normalize to empty.  A JS
Set is embedded as the list of its members; only membership is consulted. -/
def blockedHostSetOf (blockedHosts : List String) : List String :=
  ((blockedHosts.filter (fun h => h != "")).map normalizeHostForMatching).filter
    (fun h => h != "")

/-- isHostBlocked (background script lines 256 to 273). -/
def isHostBlocked (hostname : String) (blockedHostSet : List String) : Bool :=
  if hostname == "" || blockedHostSet.isEmpty then false
  else
    let normalized := normalizeHostForMatching hostname
    if normalized == "" then false
    else
      blockedHostSet.any (fun blocked =>
        normalized == blocked || jsEndsWith normalized ("." ++ blocked))

/-- The regex test for an http(s) tab url in enforceOpenTabs (line 225). -/
def isHttpUrl (url : String) : Bool :=
  jsStartsWith (jsToLower url) "http:" || jsStartsWith (jsToLower url) "https:"

/-- getHostnameFromUrl (background script lines 275 to 281): models
new URL(url).hostname.toLowerCase() for ordinary http(s) URL shapes, and
none for inputs the URL constructor rejects (empty host). -/
def getHostnameFromUrl (url : String) : Option String :=
  let l := jsToLower url
  if jsStartsWith l "http:" || jsStartsWith l "https:" then
    let afterScheme := if jsStartsWith l "https:" then jsDrop l 6 else jsDrop l 5
    let afterSlashes := afterScheme.data.dropWhile (fun c => c == '/')
    let authority := afterSlashes.takeWhile (fun c => !(c == '/' || c == '?' || c == '#'))
    let hostPort := (jsSplitChar (String.mk authority) '@').getLastD ""
    let hostname := hostPort.data.takeWhile (fun c => c != ':')
    if hostname.isEmpty then none else some (String.mk hostname)
  else none

/-- A tab as the sweep sees it: whether it has an id, and its url (the
source also skips tabs with a missing url, embedded as the empty string). -/
structure TabInfo where
  hasId : Bool
  url : String
deriving DecidableEq

/-- What enforceOpenTabs does to one tab. -/
inductive TabAction where
  | skip
  | removeOverlay
  | applyOverlay (hostname : String)
deriving DecidableEq

/-- The per-tab decision of enforceOpenTabs (background script lines 224 to
249), with the blocked-host set already built. -/
def tabDecision (extensionEnabled : Bool) (blockedHostSet : List String)
    (tab : TabInfo) : TabAction :=
  if !tab.hasId || tab.url == "" || !isHttpUrl tab.url then TabAction.skip
  else
    match getHostnameFromUrl tab.url with
    | none => TabAction.skip
    | some hostname =>
      if !extensionEnabled then TabAction.removeOverlay
      else if jsEndsWith hostname "reddit.com" then TabAction.removeOverlay
      else if isHostBlocked hostname blockedHostSet then TabAction.applyOverlay hostname
      else TabAction.removeOverlay

/-! Reddit content script: reddit_content_script.js lines 67 to 165. -/

/-- normalizeSubreddit from the content script (lines 372 to 382), which
returns null for a falsy input and otherwise runs the same pipeline as the
background version. -/
def normalizeSubredditCS (value : String) : Option String :=
  if value == "" then none else some (normalizeSubreddit value)

/-- rebuildSets (content script lines 67 to 70): the allowed-subreddit set,
with falsy raw entries and falsy normalization results dropped. -/
def allowedSetOf (allowedSubreddits : List String) : List String :=
  ((allowedSubreddits.map normalizeSubredditCS).reduceOption).filter (fun s => s != "")

/-- extractSubreddit (content script lines 159 to 165): match the leading
community path component and normalize it.  The result mirrors JS exactly:
none for no match, and possibly the empty string from normalization. -/
def extractSubreddit (pathname : String) : Option String :=
  match pathname.data with
  | '/' :: c :: '/' :: rest =>
    if c == 'r' || c == 'R' then
      let seg := rest.takeWhile (fun ch => ch != '/')
      if seg.isEmpty then none else normalizeSubredditCS (String.mk seg)
    else none
  | _ => none

/-- JS truthiness of a string-or-null value. -/
def optTruthy : Option String → Bool
  | none => false
  | some s => s != ""

inductive BlockReason where
  | subreddit (value : String)
  | homepage
  | global
deriving DecidableEq

/-- isHomepage (content script lines 135 to 157). -/
def isHomepage (pathname search : String) : Bool :=
  if pathname == "/" || pathname == "" then true
  else if pathname == "/hot" || pathname == "/best" || pathname == "/new" ||
      pathname == "/top" || pathname == "/r/all" || pathname == "/r/popular" then true
  else if pathname == "/" && search != "" && !jsIncludes search "r=" then true
  else false

/-- determineBlockReason (content script lines 112 to 133). -/
def determineBlockReason (blockReddit : Bool) (allowedSet : List String)
    (pathname search : String) : Option BlockReason :=
  if !blockReddit then none
  else
    let lowerPath := jsToLower pathname
    let sub := extractSubreddit lowerPath
    if optTruthy sub && allowedSet.contains (sub.getD "") then none
    else if optTruthy sub then some (BlockReason.subreddit (sub.getD ""))
    else if isHomepage lowerPath search then some BlockReason.homepage
    else some BlockReason.global

/-- The decision checkLocation reaches on a reddit.com document (content
script lines 94 to 109): master switch off means clear, otherwise run
determineBlockReason on the current location (with the pathname defaulted
to "/" when empty, line 100). -/
def redditDecision (extensionEnabled blockReddit : Bool) (allowedSet : List String)
    (rawPathname search : String) : Option BlockReason :=
  if !extensionEnabled then none
  else
    let pathname := if rawPathname == "" then "/" else rawPathname
    determineBlockReason blockReddit allowedSet pathname search

/-! Scroll lock: youtube_content_script.js lines 297 to 359. -/

/-- The four style slots the lock saves and restores. -/
structure PageStyles where
  docOverflow : String
  docOverscroll : String
  bodyOverflow : String
  bodyTouchAction : String
deriving DecidableEq

/-- The styles lockScroll applies while the lock is held. -/
def lockedPageStyles : PageStyles :=
  ⟨"hidden", "none", "hidden", "none"⟩

/-- The window-level lock state object. -/
structure ScrollLockState where
  count : Nat
  prevDocOverflow : String
  prevDocOverscroll : String
  prevBodyOverflow : String
  prevBodyTouchAction : String
deriving DecidableEq

/-- The page as the lock sees it: the optional window-level state object,
the current styles, and whether the scroll/key listeners are attached. -/
structure PageDoc where
  lockState : Option ScrollLockState
  styles : PageStyles
  listenersAttached : Bool
deriving DecidableEq

/-- ensureScrollLockState (youtube_content_script.js lines 254 to 295):
reuse the existing state object or create a fresh zero-count one. -/
def ensureScrollLockState (page : PageDoc) : ScrollLockState :=
  match page.lockState with
  | some st => st
  | none => ⟨0, "", "", "", ""⟩

/-- lockScroll (youtube_content_script.js lines 297 to 327): on the zero
count snapshot the current styles, apply the locked styles and attach the
listeners; always increment the count.  Falsy-coalescing a style string to
the empty string is the identity on strings and is absorbed. -/
def lockScroll (page : PageDoc) : PageDoc :=
  let stateObj := ensureScrollLockState page
  if stateObj.count == 0 then
    ⟨some ⟨stateObj.count + 1, page.styles.docOverflow, page.styles.docOverscroll,
        page.styles.bodyOverflow, page.styles.bodyTouchAction⟩,
      lockedPageStyles, true⟩
  else
    ⟨some ⟨stateObj.count + 1, stateObj.prevDocOverflow, stateObj.prevDocOverscroll,
        stateObj.prevBodyOverflow, stateObj.prevBodyTouchAction⟩,
      page.styles, page.listenersAttached⟩

/-- unlockScroll (youtube_content_script.js lines 329 to 359): no state
object means no-op; otherwise decrement (clamped at zero); when the count
reaches zero restore the snapshotted styles, detach the listeners and
delete the state object. -/
def unlockScroll (page : PageDoc) : PageDoc :=
  match page.lockState with
  | none => page
  | some stateObj =>
    let c := stateObj.count - 1
    if c > 0 then
      ⟨some ⟨c, stateObj.prevDocOverflow, stateObj.prevDocOverscroll,
          stateObj.prevBodyOverflow, stateObj.prevBodyTouchAction⟩,
        page.styles, page.listenersAttached⟩
    else
      ⟨none,
        ⟨stateObj.prevDocOverflow, stateObj.prevDocOverscroll,
          stateObj.prevBodyOverflow, stateObj.prevBodyTouchAction⟩,
        false⟩

/-! YouTube channel blocklist: background script lines 498 to 545 and 731
to 795. -/

/-- The owner record extracted from a video lookup. -/
structure VideoInfo where
  channelId : String
  channelTitle : String
deriving DecidableEq

inductive ChannelEntryType where
  | id
  | handle
  | name
deriving DecidableEq

/-- A normalized blocklist entry. -/
structure ChannelEntry where
  type : ChannelEntryType
  value : String
deriving DecidableEq

/-- The replace step that strips one leading at sign. -/
def stripLeadingAt (s : String) : String :=
  if jsStartsWith s "@" then jsDrop s 1 else s

/-- The loop body of isChannelBlocked (background script lines 776 to 792):
does one (possibly null) entry match the prepared owner fields. -/
def channelEntryHit (channelId channelTitle normalizedHandle : String) :
    Option ChannelEntry → Bool
  | none => false
  | some entry =>
    if entry.value == "" then false
    else if entry.type == ChannelEntryType.id && entry.value == channelId then true
    else if entry.type == ChannelEntryType.name && entry.value == channelTitle then true
    else if entry.type == ChannelEntryType.handle && normalizedHandle != "" &&
        entry.value == normalizedHandle then true
    else false

/-- isChannelBlocked (background script lines 767 to 795).  Entries are
optional because the loop tolerates null entries. -/
def isChannelBlocked (info : Option VideoInfo) (entries : List (Option ChannelEntry))
    (channelHandle : String) : Bool :=
  match info with
  | none => false
  | some owner =>
    entries.any (channelEntryHit (jsToLower owner.channelId) (jsToLower owner.channelTitle)
      (jsToLower (stripLeadingAt channelHandle)))

/-- One character of the channel-id body class [A-Za-z0-9_-]. -/
def ucIdChar (c : Char) : Bool :=
  c.isAlphanum || c == '_' || c == '-'

/-- The channel-id regex of line 756: uc (case-insensitive) followed by
exactly 22 characters of the id class. -/
def isUcIdToken (s : String) : Bool :=
  match s.data with
  | c1 :: c2 :: rest =>
    (c1 == 'u' || c1 == 'U') && (c2 == 'c' || c2 == 'C') &&
      rest.length == 22 && rest.all ucIdChar
  | _ => false

/-- The regex test of line 741 for URL-shaped input. -/
def jsHttpUrlTest (s : String) : Bool :=
  jsStartsWith (jsToLower s) "http://" || jsStartsWith (jsToLower s) "https://"

/-- Models new URL(raw).pathname for http(s) URL shapes, preserving case;
none models the constructor throwing (empty authority). -/
def jsUrlPathname (url : String) : Option String :=
  let rest := if jsStartsWith (jsToLower url) "https://" then jsDrop url 8 else jsDrop url 7
  let authority := rest.data.takeWhile (fun c => !(c == '/' || c == '?' || c == '#'))
  if authority.isEmpty then none
  else
    match rest.data.drop authority.length with
    | '/' :: tail => some (String.mk (('/' :: tail).takeWhile (fun c => !(c == '?' || c == '#'))))
    | _ => some "/"

/-- pathname.split with filter(Boolean): the non-empty path segments. -/
def pathSegments (pathname : String) : List String :=
  (jsSplitChar pathname '/').filter (fun s => s != "")

/-- normalizeYouTubeChannelEntry (background script lines 731 to 765). -/
def normalizeYouTubeChannelEntry (value : String) : Option ChannelEntry :=
  if value == "" then none
  else
    let raw0 := jsTrim value
    if raw0 == "" then none
    else
      let raw :=
        if jsHttpUrlTest raw0 then
          match jsUrlPathname raw0 with
          | none => raw0
          | some pathname =>
            if jsStartsWith pathname "/channel/" then (pathSegments pathname).getD 1 raw0
            else if jsStartsWith pathname "/@" then
              "@" ++ stripLeadingAt ((pathSegments pathname).getD 0 raw0)
            else if jsStartsWith pathname "/c/" then (pathSegments pathname).getD 1 raw0
            else raw0
        else raw0
      if isUcIdToken raw then some ⟨ChannelEntryType.id, jsToLower raw⟩
      else if jsStartsWith raw "@" then some ⟨ChannelEntryType.handle, jsToLower (jsDrop raw 1)⟩
      else some ⟨ChannelEntryType.name, jsToLower raw⟩

/-- The normalized entry list handleYouTubeVideoCheck builds (lines 514 to
516): map the normalizer over the raw entries and drop the nulls. -/
def normalizedEntriesOf (blockedYouTubeChannels : List String) : List ChannelEntry :=
  (blockedYouTubeChannels.map normalizeYouTubeChannelEntry).reduceOption

/-- The message response shape. -/
structure CheckResponse where
  allowed : Bool
  reason : String
  channelId : Option String
  channelTitle : Option String
deriving DecidableEq

/-- An invocation of one of the two lookup helpers. -/
inductive ExternalCall where
  | videoLookup (videoId : String)
  | channelLookup (channelId : String)
deriving DecidableEq

/-- handleYouTubeVideoCheck (background script lines 498 to 545), with the
stored configuration and the credential passed in, the two lookup helpers
abstracted as oracles, and the lookup invocations recorded in order. -/
def handleYouTubeVideoCheck (videoId : String) (extensionEnabled : Bool)
    (blockedYouTubeChannels : List String) (apiKey : String)
    (videoInfoOf : String → Option VideoInfo) (channelHandleOf : String → String) :
    CheckResponse × List ExternalCall :=
  let vid := jsTrim videoId
  if vid == "" then (⟨true, "invalid-video-id", none, none⟩, [])
  else if !extensionEnabled then (⟨true, "extension-disabled", none, none⟩, [])
  else
    let normalizedEntries := normalizedEntriesOf blockedYouTubeChannels
    if normalizedEntries.isEmpty then (⟨true, "no-blocked-channels", none, none⟩, [])
    else if apiKey == "" then (⟨true, "missing-api-key", none, none⟩, [])
    else
      match videoInfoOf vid with
      | none => (⟨true, "video-not-found", none, none⟩, [ExternalCall.videoLookup vid])
      | some owner =>
        let needHandle := normalizedEntries.any (fun e => e.type == ChannelEntryType.handle)
        let channelHandle := if needHandle then channelHandleOf owner.channelId else ""
        let calls := ExternalCall.videoLookup vid ::
          (if needHandle then [ExternalCall.channelLookup owner.channelId] else [])
        let blocked := isChannelBlocked (some owner) (normalizedEntries.map some) channelHandle
        (⟨!blocked, if blocked then "channel-blocked" else "channel-allowed",
          some owner.channelId, some owner.channelTitle⟩, calls)

/-! TTL caches: background script lines 24 to 32, 547 to 620 and 797 to
825. -/

/-- One cache slot: insertion timestamp and payload. -/
structure CacheEntry (α : Type) where
  timestamp : Nat
  data : α
deriving DecidableEq

/-- The channel-handle payload. -/
structure HandleRec where
  handle : String
deriving DecidableEq

def YOUTUBE_CACHE_TTL_MS : Nat := 5 * 60 * 1000

def YOUTUBE_CHANNEL_CACHE_TTL_MS : Nat := 10 * 60 * 1000

/-- A JS Map embedded as an insertion-ordered association list with unique
keys: Map.get. -/
def mapGet {α : Type} (m : List (String × α)) (k : String) : Option α :=
  match m.find? (fun p => p.1 == k) with
  | some p => some p.2
  | none => none

/-- Map.set: update in place when the key exists, append otherwise. -/
def mapSet {α : Type} (m : List (String × α)) (k : String) (v : α) : List (String × α) :=
  if m.any (fun p => p.1 == k) then m.map (fun p => if p.1 == k then (k, v) else p)
  else m ++ [(k, v)]

/-- Map.delete. -/
def mapDelete {α : Type} (m : List (String × α)) (k : String) : List (String × α) :=
  m.filter (fun p => p.1 != k)

/-- The comparator (a, b) =&gt; a[1].timestamp - b[1].timestamp as a sorting
relation. -/
def tsLe {α : Type} (a b : String × CacheEntry α) : Bool :=
  a.2.timestamp ≤ b.2.timestamp

/-- The eviction loop of the prune helpers: walk the timestamp-sorted entry
list, deleting keys while the cache is still over its limit. -/
def evictOldest {α : Type} (maxEntries : Nat) :
    List (String × CacheEntry α) → List (String × CacheEntry α) → List (String × CacheEntry α)
  | cache, [] => cache
  | cache, (k, _) :: rest =>
    if cache.length > maxEntries then evictOldest maxEntries (mapDelete cache k) rest
    else cache

/-- The shared shape of pruneYouTubeVideoCache and pruneYouTubeChannelCache
(background script lines 797 to 825): nothing to do at or under the limit,
otherwise sort the entries by timestamp (JS sort is stable, as is the
mergeSort used here) and evict from the front while over the limit. -/
def pruneCache {α : Type} (maxEntries : Nat) (cache : List (String × CacheEntry α)) :
    List (String × CacheEntry α) :=
  if cache.length ≤ maxEntries then cache
  else evictOldest maxEntries cache (cache.mergeSort tsLe)

/-- pruneYouTubeVideoCache (lines 797 to 810), limit 100. -/
def pruneYouTubeVideoCache (cache : List (String × CacheEntry (Option VideoInfo))) :
    List (String × CacheEntry (Option VideoInfo)) :=
  pruneCache 100 cache

/-- pruneYouTubeChannelCache (lines 812 to 825), limit 200. -/
def pruneYouTubeChannelCache (cache : List (String × CacheEntry (Option HandleRec))) :
    List (String × CacheEntry (Option HandleRec)) :=
  pruneCache 200 cache

/-- fetchYouTubeVideoInfo (background script lines 547 to 582) as a cache
transition: given the cache, the current clock and the owner record a
successful network lookup would produce, return the result, the new cache,
and whether the network lookup was issued. -/
def fetchYouTubeVideoInfo (cache : List (String × CacheEntry (Option VideoInfo)))
    (now : Nat) (videoId : String) (fetched : Option VideoInfo) :
    Option VideoInfo × List (String × CacheEntry (Option VideoInfo)) × Bool :=
  match mapGet cache videoId with
  | some cached =>
    if now - cached.timestamp < YOUTUBE_CACHE_TTL_MS then (cached.data, cache, false)
    else (fetched, pruneYouTubeVideoCache (mapSet cache videoId ⟨now, fetched⟩), true)
  | none => (fetched, pruneYouTubeVideoCache (mapSet cache videoId ⟨now, fetched⟩), true)

/-- fetchYouTubeChannelInfo (background script lines 584 to 620) as a cache
transition; the oracle string is the handle a successful lookup would
extract (possibly empty). -/
def fetchYouTubeChannelInfo (cache : List (String × CacheEntry (Option HandleRec)))
    (now : Nat) (channelId : String) (fetchedHandle : String) :
    Option HandleRec × List (String × CacheEntry (Option HandleRec)) × Bool :=
  let normalizedId := jsTrim channelId
  if normalizedId == "" then (none, cache, false)
  else
    match mapGet cache normalizedId with
    | some cached =>
      if now - cached.timestamp < YOUTUBE_CHANNEL_CACHE_TTL_MS then (cached.data, cache, false)
      else
        (some ⟨fetchedHandle⟩,
          pruneYouTubeChannelCache (mapSet cache normalizedId ⟨now, some ⟨fetchedHandle⟩⟩), true)
    | none =>
      (some ⟨fetchedHandle⟩,
        pruneYouTubeChannelCache (mapSet cache normalizedId ⟨now, some ⟨fetchedHandle⟩⟩), true)

/-! Spec-side decision rules, written from the words of the specification
for comparison with the code. -/

/-- Modelled from the spec: the claim C4 matching rule read literally, with
equal (case-insensitive) rendered as equality after lower-casing both
sides, and the handle comparison against the resolved handle with one
leading at sign stripped. -/
def specEntryMatches (owner : VideoInfo) (resolvedHandle : String)
    (entry : ChannelEntry) : Prop :=
  (entry.type = ChannelEntryType.id ∧ jsToLower entry.value = jsToLower owner.channelId) ∨
  (entry.type = ChannelEntryType.name ∧ jsToLower entry.value = jsToLower owner.channelTitle) ∨
  (entry.type = ChannelEntryType.handle ∧
    jsToLower entry.value = jsToLower (stripLeadingAt resolvedHandle))

/-- The matching rule the code actually implements: the stored entry value
(which normalization has already lower-cased) is compared verbatim against
the lower-cased owner field, empty values never match, and a handle entry
additionally requires the stripped resolved handle to be non-empty. -/
def amendedEntryMatches (owner : VideoInfo) (resolvedHandle : String)
    (entry : ChannelEntry) : Prop :=
  entry.value ≠ "" ∧
  ((entry.type = ChannelEntryType.id ∧ entry.value = jsToLower owner.channelId) ∨
   (entry.type = ChannelEntryType.name ∧ entry.value = jsToLower owner.channelTitle) ∨
   (entry.type = ChannelEntryType.handle ∧ jsToLower (stripLeadingAt resolvedHandle) ≠ "" ∧
     entry.value = jsToLower (stripLeadingAt resolvedHandle)))

/-- Modelled from the spec: the fixed set of aggregate feed paths the
specification lists for the homepage decision (the code writes them as the
first if and the switch arms of isHomepage). -/
def aggregateFeedPaths : List String :=
  ["/", "/hot", "/best", "/new", "/top", "/r/all", "/r/popular"]

/-! General lemmas about the embedded primitives. -/

theorem string_eq_empty_iff {s : String} : s = "" ↔ s.data = [] := by
  constructor
  · intro h
    rw [h]
  · intro h
    cases s with
    | mk d =>
      have h2 : d = [] := h
      rw [h2]

theorem jsEndsWith_ne_empty {s p : String} (h : jsEndsWith s ("." ++ p) = true) : s ≠ "" := by
  intro hs
  subst hs
  rw [jsEndsWith, List.isSuffixOf_iff_suffix] at h
  have hlen := h.length_le
  have : ("." ++ p).data = '.' :: p.data := rfl
  rw [this] at hlen
  simp at hlen

theorem isHostBlocked_eq_any (x : String) (set : List String) :
    isHostBlocked x set =
      (normalizeHostForMatching x != "" &&
        set.any (fun blocked => normalizeHostForMatching x == blocked ||
          jsEndsWith (normalizeHostForMatching x) ("." ++ blocked))) := by
  unfold isHostBlocked
  by_cases hx : x = ""
  · subst hx
    simp [normalizeHostForMatching]
  · have hxb : (x == "") = false := by simp [hx]
    rw [hxb]
    cases set with
    | nil => simp
    | cons a l =>
      by_cases hn : normalizeHostForMatching x = ""
      · simp [hn]
      · simp [hn]

theorem mem_blockedHostSetOf {B : List String} {s : String} :
    s ∈ blockedHostSetOf B ↔
      s ≠ "" ∧ ∃ b ∈ B, b ≠ "" ∧ normalizeHostForMatching b = s := by
  simp only [blockedHostSetOf, List.mem_filter, List.mem_map, bne_iff_ne]
  tauto

/-- Claim C3: isHostBlocked decides suffix matching against the normalized
blocked-host set: true exactly when, after trimming, lower-casing and
stripping a leading www. on both sides, the hostname equals a blocked entry
or ends with a dot followed by it; sub.a.com is blocked for entry a.com,
notaa.com is not, and an empty blocked set blocks nothing. -/
theorem C3_host_suffix_matching :
    (∀ (blockedHosts : List String) (x : String),
      isHostBlocked x (blockedHostSetOf blockedHosts) = true ↔
        ∃ b ∈ blockedHosts, b ≠ "" ∧ normalizeHostForMatching b ≠ "" ∧
          (normalizeHostForMatching x = normalizeHostForMatching b ∨
            jsEndsWith (normalizeHostForMatching x)
              ("." ++ normalizeHostForMatching b) = true)) ∧
    isHostBlocked "sub.a.com" (blockedHostSetOf ["a.com"]) = true ∧
    isHostBlocked "notaa.com" (blockedHostSetOf ["a.com"]) = false ∧
    (∀ x, isHostBlocked x (blockedHostSetOf []) = false) := by
  refine ⟨?_, by decide, by decide, ?_⟩
  · intro B x
    rw [isHostBlocked_eq_any]
    simp only [Bool.and_eq_true, List.any_eq_true, bne_iff_ne, Bool.or_eq_true, beq_iff_eq]
    constructor
    · rintro ⟨hx, b, hbmem, hmatch⟩
      rw [mem_blockedHostSetOf] at hbmem
      obtain ⟨hbne, braw, hbraw, hrawne, hnorm⟩ := hbmem
      subst hnorm
      exact ⟨braw, hbraw, hrawne, hbne, hmatch⟩
    · rintro ⟨braw, hbraw, hrawne, hnormne, hmatch⟩
      refine ⟨?_, normalizeHostForMatching braw,
        mem_blockedHostSetOf.mpr ⟨hnormne, braw, hbraw, hrawne, rfl⟩, hmatch⟩
      rcases hmatch with heq | hsuf
      · rw [heq]; exact hnormne
      · exact jsEndsWith_ne_empty hsuf
  · intro x
    rw [isHostBlocked_eq_any]
    simp [blockedHostSetOf]

/-- Witness for claim C3 at a concrete instance. -/
theorem C3_host_suffix_matching_witness :
    isHostBlocked "x.y.com" (blockedHostSetOf ["y.com"]) = true :=
  (C3_host_suffix_matching.1 ["y.com"] "x.y.com").mpr
    ⟨"y.com", by decide, by decide, by decide, Or.inr (by decide)⟩

/-- Claim C2: with the master switch off, rule compilation removes every
installed dynamic rule and adds none, and the open-tab sweep removes the
site overlay from every open http(s) document (one whose url parses to a
hostname). -/
theorem C2_master_switch_off (state : StoredState) (existingRules : List Rule)
    (tab : TabInfo) (hdis : state.extensionEnabled = false) :
    updateAllRules state existingRules = ⟨existingRules.map Rule.id, []⟩ ∧
    (∀ hostname, tab.hasId = true → isHttpUrl tab.url = true →
      getHostnameFromUrl tab.url = some hostname →
      tabDecision state.extensionEnabled (blockedHostSetOf state.blockedHosts) tab =
        TabAction.removeOverlay) := by
  constructor
  · simp [updateAllRules, hdis]
  · intro hostname hid hhttp hhost
    have hurl : (tab.url == "") = false := by
      by_cases h : tab.url = ""
      · rw [h] at hhttp
        exact absurd hhttp (by decide)
      · simp [h]
    unfold tabDecision
    rw [hid, hurl, hhttp, hhost, hdis]
    simp

/-- Witness for claim C2 at a concrete instance. -/
theorem C2_master_switch_off_witness :
    tabDecision false (blockedHostSetOf []) ⟨true, "https://example.com/"⟩ =
      TabAction.removeOverlay :=
  (C2_master_switch_off ⟨[], [], false, false, []⟩ [] ⟨true, "https://example.com/"⟩ rfl).2
    "example.com" rfl (by decide) (by decide)

/-- Claim C9: the scroll/input lock is reference counted: acquiring on a
held lock only increments, releasing above one only decrements, release
with no state object is a no-op, and the acquire-acquire-release-release
scenario restores the original styles only on the second release. -/
theorem C9_scroll_lock_refcount :
    (∀ page : PageDoc, page.lockState = none → unlockScroll page = page) ∧
    (∀ (page : PageDoc) (st : ScrollLockState), page.lockState = some st → st.count ≠ 0 →
      lockScroll page =
        ⟨some ⟨st.count + 1, st.prevDocOverflow, st.prevDocOverscroll, st.prevBodyOverflow,
          st.prevBodyTouchAction⟩, page.styles, page.listenersAttached⟩) ∧
    (∀ (page : PageDoc) (st : ScrollLockState), page.lockState = some st → 1 < st.count →
      unlockScroll page =
        ⟨some ⟨st.count - 1, st.prevDocOverflow, st.prevDocOverscroll, st.prevBodyOverflow,
          st.prevBodyTouchAction⟩, page.styles, page.listenersAttached⟩) ∧
    (∀ styles : PageStyles,
      unlockScroll ⟨none, styles, false⟩ = ⟨none, styles, false⟩ ∧
      lockScroll ⟨none, styles, false⟩ =
        ⟨some ⟨1, styles.docOverflow, styles.docOverscroll, styles.bodyOverflow,
          styles.bodyTouchAction⟩, lockedPageStyles, true⟩ ∧
      unlockScroll (lockScroll (lockScroll ⟨none, styles, false⟩)) =
        ⟨some ⟨1, styles.docOverflow, styles.docOverscroll, styles.bodyOverflow,
          styles.bodyTouchAction⟩, lockedPageStyles, true⟩ ∧
      unlockScroll (unlockScroll (lockScroll (lockScroll ⟨none, styles, false⟩))) =
        ⟨none, styles, false⟩)
    := by
  refine ⟨?_, ?_, ?_, ?_⟩
  · rintro ⟨ls, sty, li⟩ h
    cases h
    rfl
  · rintro ⟨ls, sty, li⟩ st h hc
    cases h
    have : (st.count == 0) = false := by simp [hc]
    simp [lockScroll, ensureScrollLockState, this]
  · rintro ⟨ls, sty, li⟩ st h hc
    cases h
    have : 0 < st.count - 1 := by omega
    simp [unlockScroll, this]
  · intro styles
    refine ⟨rfl, rfl, rfl, rfl⟩

/-- Witness for claim C9 at a concrete instance. -/
theorem C9_scroll_lock_refcount_witness :
    unlockScroll ⟨some ⟨3, "a", "b", "c", "d"⟩, lockedPageStyles, true⟩ =
      ⟨some ⟨2, "a", "b", "c", "d"⟩, lockedPageStyles, true⟩ :=
  C9_scroll_lock_refcount.2.2.1 ⟨some ⟨3, "a", "b", "c", "d"⟩, lockedPageStyles, true⟩
    ⟨3, "a", "b", "c", "d"⟩ rfl (by decide)

theorem channelEntryHit_eq_true_iff (cid ctitle nh : String)
    (entryOpt : Option ChannelEntry) :
    channelEntryHit cid ctitle nh entryOpt = true ↔
      ∃ entry, entryOpt = some entry ∧ entry.value ≠ "" ∧
        ((entry.type = ChannelEntryType.id ∧ entry.value = cid) ∨
         (entry.type = ChannelEntryType.name ∧ entry.value = ctitle) ∨
         (entry.type = ChannelEntryType.handle ∧ nh ≠ "" ∧ entry.value = nh)) := by
  cases entryOpt with
  | none => simp [channelEntryHit]
  | some entry =>
    rcases entry with ⟨ty, v⟩
    by_cases hv : v = ""
    · subst hv
      simp [channelEntryHit]
    · by_cases hn : nh = "" <;>
        cases ty <;>
          simp [channelEntryHit, hv, hn, beq_iff_eq] <;>
            by_cases hvc : v = cid <;> by_cases hvt : v = ctitle <;> by_cases hvn : v = nh <;>
              simp_all

/-- Claim C4 (amended): isChannelBlocked is false for an unresolved owner,
and otherwise true exactly when some non-null, non-empty-valued entry
matches: an id or name entry whose stored (already lower-cased) value
equals the lower-cased owner field, or a handle entry whose value equals
the lower-cased at-stripped resolved handle, the latter being required to
be non-empty. -/
theorem C4_channel_blocklist_matching :
    (∀ entries channelHandle, isChannelBlocked none entries channelHandle = false) ∧
    (∀ (owner : VideoInfo) (entries : List (Option ChannelEntry)) (channelHandle : String),
      isChannelBlocked (some owner) entries channelHandle = true ↔
        ∃ entryOpt ∈ entries, ∃ entry, entryOpt = some entry ∧
          amendedEntryMatches owner channelHandle entry) := by
  constructor
  · intro _ _
    rfl
  · intro owner entries ch
    simp only [isChannelBlocked, List.any_eq_true]
    refine exists_congr fun entryOpt => and_congr_right fun _ => ?_
    rw [channelEntryHit_eq_true_iff]
    rfl

/-- Witness for claim C4 at a concrete instance. -/
theorem C4_channel_blocklist_matching_witness :
    isChannelBlocked (some ⟨"UCabc", "My Channel"⟩)
      [some ⟨ChannelEntryType.name, "my channel"⟩] "" = true :=
  (C4_channel_blocklist_matching.2 ⟨"UCabc", "My Channel"⟩
      [some ⟨ChannelEntryType.name, "my channel"⟩] "").mpr
    ⟨some ⟨ChannelEntryType.name, "my channel"⟩, by decide,
      ⟨ChannelEntryType.name, "my channel"⟩, rfl,
      by decide, Or.inr (Or.inl ⟨rfl, by decide⟩)⟩

/-- Counterexample to claim C4 as stated: with the matching rule read
literally (case-insensitive equality on both sides, no non-emptiness
requirement), the code disagrees at an empty-valued handle entry facing an
empty resolved handle, and at an upper-cased name entry facing a title that
matches it only case-insensitively. -/
theorem C4_channel_blocklist_matching_counterexample :
    ¬ (isChannelBlocked (some ⟨"c", "t"⟩) [some ⟨ChannelEntryType.handle, ""⟩] "" = true ↔
        ∃ entryOpt ∈ ([some ⟨ChannelEntryType.handle, ""⟩] : List (Option ChannelEntry)),
          ∃ entry, entryOpt = some entry ∧ specEntryMatches ⟨"c", "t"⟩ "" entry) ∧
    ¬ (isChannelBlocked (some ⟨"c", "Example"⟩)
          [some ⟨ChannelEntryType.name, "EXAMPLE"⟩] "" = true ↔
        ∃ entryOpt ∈ ([some ⟨ChannelEntryType.name, "EXAMPLE"⟩] : List (Option ChannelEntry)),
          ∃ entry, entryOpt = some entry ∧ specEntryMatches ⟨"c", "Example"⟩ "" entry) := by
  constructor
  · intro h
    have hc := h.mpr ⟨some ⟨ChannelEntryType.handle, ""⟩, by decide,
      ⟨ChannelEntryType.handle, ""⟩, rfl, Or.inr (Or.inr ⟨rfl, rfl⟩)⟩
    exact absurd hc (by decide)
  · intro h
    have hc := h.mpr ⟨some ⟨ChannelEntryType.name, "EXAMPLE"⟩, by decide,
      ⟨ChannelEntryType.name, "EXAMPLE"⟩, rfl, Or.inr (Or.inl ⟨rfl, by decide⟩)⟩
    exact absurd hc (by decide)

/-- Claim C10: null entries and empty-valued entries never contribute to a
block, and when the stripped resolved handle is empty no all-handle entry
list can block at all, whatever the owner. -/
theorem C10_degenerate_entries_never_block :
    (∀ (info : Option VideoInfo) (entries : List (Option ChannelEntry))
        (channelHandle : String),
      isChannelBlocked info entries channelHandle =
        isChannelBlocked info
          (entries.filter (fun entryOpt => match entryOpt with
            | some entry => entry.value != ""
            | none => false)) channelHandle) ∧
    (∀ (info : Option VideoInfo) (entries : List (Option ChannelEntry))
        (channelHandle : String),
      jsToLower (stripLeadingAt channelHandle) = "" →
      (∀ entryOpt ∈ entries, ∀ entry, entryOpt = some entry →
        entry.type = ChannelEntryType.handle) →
      isChannelBlocked info entries channelHandle = false) := by
  constructor
  · intro info entries ch
    cases info with
    | none => rfl
    | some owner =>
      simp only [isChannelBlocked]
      induction entries with
      | nil => rfl
      | cons e rest ih =>
        cases e with
        | none => simp [List.filter_cons, ih, channelEntryHit]
        | some entry =>
          by_cases hv : entry.value = ""
          · have hb : (entry.value != "") = false := by simp [hv]
            simp [List.filter_cons, hb, ih, channelEntryHit, hv]
          · have hb : (entry.value != "") = true := by simp [hv]
            simp [List.filter_cons, hb, ih]
  · intro info entries ch hnh hall
    cases info with
    | none => rfl
    | some owner =>
      simp only [isChannelBlocked]
      rw [List.any_eq_false]
      intro entryOpt hmem
      cases entryOpt with
      | none => simp [channelEntryHit]
      | some entry =>
        have hty := hall (some entry) hmem entry rfl
        by_cases hv : entry.value = ""
        · simp [channelEntryHit, hv]
        · simp [channelEntryHit, hv, hty, hnh]

/-- Witness for claim C10 at a concrete instance. -/
theorem C10_degenerate_entries_never_block_witness :
    isChannelBlocked (some ⟨"a", "b"⟩)
      [none, some ⟨ChannelEntryType.handle, ""⟩, some ⟨ChannelEntryType.handle, "x"⟩] "@" =
      false :=
  C10_degenerate_entries_never_block.2 (some ⟨"a", "b"⟩)
    [none, some ⟨ChannelEntryType.handle, ""⟩, some ⟨ChannelEntryType.handle, "x"⟩] "@"
    (by decide) (by decide)

theorem jsToLower_eq_empty_iff {s : String} : jsToLower s = "" ↔ s = "" := by
  rw [@string_eq_empty_iff (jsToLower s), @string_eq_empty_iff s]
  show s.data.map Char.toLower = [] ↔ s.data = []
  simp

theorem isHomepage_iff_mem {p s : String} (hp : p ≠ "") :
    isHomepage p s = true ↔ p ∈ aggregateFeedPaths := by
  by_cases h0 : p = "/"
  · subst h0
    simp [isHomepage, aggregateFeedPaths]
  · simp only [isHomepage, aggregateFeedPaths, h0, hp]
    simp [h0, hp]
    tauto

/-- Claim C6: on the community site the in-page decision yields clear with
the master or block switch off; with both on, clear for an allow-listed
subreddit, showing(subreddit) for a subreddit off the allow list,
showing(homepage) for a subreddit-free path among the fixed aggregate feed
paths, and showing(global) for any other path; /r/funny with an empty
allow list blocks as subreddit funny and clears once funny is allowed. -/
theorem C6_reddit_page_decision :
    (∀ (blockReddit : Bool) (allowedSet : List String) (p srch : String),
      redditDecision false blockReddit allowedSet p srch = none) ∧
    (∀ (allowedSet : List String) (p srch : String),
      redditDecision true false allowedSet p srch = none) ∧
    (∀ (allowedSet : List String) (p srch sub : String),
      extractSubreddit (jsToLower (if p == "" then "/" else p)) = some sub → sub ≠ "" →
      (sub ∈ allowedSet → redditDecision true true allowedSet p srch = none) ∧
      (sub ∉ allowedSet →
        redditDecision true true allowedSet p srch = some (BlockReason.subreddit sub))) ∧
    (∀ (allowedSet : List String) (p srch : String),
      optTruthy (extractSubreddit (jsToLower (if p == "" then "/" else p))) = false →
      (jsToLower (if p == "" then "/" else p) ∈ aggregateFeedPaths →
        redditDecision true true allowedSet p srch = some BlockReason.homepage) ∧
      (jsToLower (if p == "" then "/" else p) ∉ aggregateFeedPaths →
        redditDecision true true allowedSet p srch = some BlockReason.global)) ∧
    redditDecision true true (allowedSetOf []) "/r/funny" "" =
      some (BlockReason.subreddit "funny") ∧
    redditDecision true true (allowedSetOf ["funny"]) "/r/funny" "" = none := by
  refine ⟨?_, ?_, ?_, ?_, by decide, by decide⟩
  · intro bR aset p srch
    simp [redditDecision]
  · intro aset p srch
    simp [redditDecision, determineBlockReason]
  · intro aset p srch sub hex hne
    simp only [beq_iff_eq] at hex
    constructor
    · intro hmem
      have hc : aset.contains sub = true := List.elem_eq_true_of_mem hmem
      simp [redditDecision, determineBlockReason, hex, optTruthy, hne, hc]
      exact hmem
    · intro hmem
      have hc : aset.contains sub = false := by
        cases hcc : aset.contains sub
        · rfl
        · exact absurd (List.elem_iff.mp hcc) hmem
      simp [redditDecision, determineBlockReason, hex, optTruthy, hne, hc]
      exact hmem
  · intro aset p srch hfalsy
    simp only [beq_iff_eq] at hfalsy
    have hplower : jsToLower (if p = "" then "/" else p) ≠ "" := by
      rw [ne_eq, jsToLower_eq_empty_iff]
      by_cases hp : p = "" <;> simp [hp]
    constructor
    · intro hmem
      simp only [beq_iff_eq] at hmem
      have hh : isHomepage (jsToLower (if p = "" then "/" else p)) srch = true :=
        (isHomepage_iff_mem hplower).mpr hmem
      simp [redditDecision, determineBlockReason, hfalsy, hh]
    · intro hmem
      simp only [beq_iff_eq] at hmem
      have hh : isHomepage (jsToLower (if p = "" then "/" else p)) srch = false := by
        rw [← Bool.not_eq_true, isHomepage_iff_mem hplower]
        exact hmem
      simp [redditDecision, determineBlockReason, hfalsy, hh]

/-- Witness for claim C6 at a concrete instance. -/
theorem C6_reddit_page_decision_witness :
    redditDecision true true ["funny"] "/r/Funny/comments/1" "" = none :=
  ((C6_reddit_page_decision.2.2.1 ["funny"] "/r/Funny/comments/1" "" "funny"
    (by decide) (by decide)).1) (by decide)

/-- Claim C8: normalizeYouTubeChannelEntry returns null for empty input,
extracts the appropriate path segment for the three channel link shapes,
classifies a 22-character uc-prefixed token as id, a leading-at token as
handle with the at sign removed, anything else as name, and always stores
a lower-cased value. -/
theorem C8_normalize_channel_entry :
    normalizeYouTubeChannelEntry "" = none ∧
    normalizeYouTubeChannelEntry "   " = none ∧
    (∀ s : String, s ≠ "" → jsTrim s ≠ "" → jsHttpUrlTest (jsTrim s) = false →
      normalizeYouTubeChannelEntry s =
        some (if isUcIdToken (jsTrim s) = true then
            ⟨ChannelEntryType.id, jsToLower (jsTrim s)⟩
          else if jsStartsWith (jsTrim s) "@" = true then
            ⟨ChannelEntryType.handle, jsToLower (jsDrop (jsTrim s) 1)⟩
          else ⟨ChannelEntryType.name, jsToLower (jsTrim s)⟩)) ∧
    (∀ s entry, normalizeYouTubeChannelEntry s = some entry →
      ∃ t, entry.value = jsToLower t) ∧
    normalizeYouTubeChannelEntry "https://www.youtube.com/channel/UCabcdefghijklmnopqrstuv/videos" =
      some ⟨ChannelEntryType.id, "ucabcdefghijklmnopqrstuv"⟩ ∧
    normalizeYouTubeChannelEntry "https://youtube.com/@SomeHandle/videos" =
      some ⟨ChannelEntryType.handle, "somehandle"⟩ ∧
    normalizeYouTubeChannelEntry "https://youtube.com/c/SomeName" =
      some ⟨ChannelEntryType.name, "somename"⟩ := by
  refine ⟨by decide, by decide, ?_, ?_, by decide, by decide, by decide⟩
  · intro s hs ht hurl
    have hsb : (s == "") = false := by simp [hs]
    have htb : (jsTrim s == "") = false := by simp [ht]
    by_cases hid : isUcIdToken (jsTrim s) = true
    · simp [normalizeYouTubeChannelEntry, hsb, htb, hurl, hid]
    · have hid2 : isUcIdToken (jsTrim s) = false := by
        rw [← Bool.not_eq_true]; exact hid
      by_cases hat : jsStartsWith (jsTrim s) "@" = true
      · simp [normalizeYouTubeChannelEntry, hsb, htb, hurl, hid2, hat]
      · have hat2 : jsStartsWith (jsTrim s) "@" = false := by
          rw [← Bool.not_eq_true]; exact hat
        simp [normalizeYouTubeChannelEntry, hsb, htb, hurl, hid2, hat2]
  · intro s entry h
    unfold normalizeYouTubeChannelEntry at h
    cases hsb : (s == "") with
    | true => simp [hsb] at h
    | false =>
      simp only [hsb, Bool.false_eq_true, if_false] at h
      cases htb : (jsTrim s == "") with
      | true => simp [htb] at h
      | false =>
        simp only [htb, Bool.false_eq_true, if_false] at h
        generalize (if jsHttpUrlTest (jsTrim s) = true then _ else _ : String) = raw at h
        split at h
        · cases h
          exact ⟨raw, rfl⟩
        · split at h
          · cases h
            exact ⟨jsDrop raw 1, rfl⟩
          · cases h
            exact ⟨raw, rfl⟩

/-- Witness for claim C8 at a concrete instance. -/
theorem C8_normalize_channel_entry_witness :
    normalizeYouTubeChannelEntry " @Foo " = some ⟨ChannelEntryType.handle, "foo"⟩ := by
  have h := C8_normalize_channel_entry.2.2.1 " @Foo " (by decide) (by decide) (by decide)
  rw [h]
  decide

/-- Claim C5: handleYouTubeVideoCheck short-circuits, in order, on a blank
video id, a disabled master switch, an empty normalized blocklist, and a
missing credential, issuing no lookup in those cases; and the
channel-handle lookup is only ever issued when some normalized entry is of
handle type. -/
theorem C5_video_check_short_circuits (videoId : String) (extensionEnabled : Bool)
    (channels : List String) (apiKey : String)
    (videoInfoOf : String → Option VideoInfo) (channelHandleOf : String → String) :
    (jsTrim videoId = "" →
      handleYouTubeVideoCheck videoId extensionEnabled channels apiKey videoInfoOf
          channelHandleOf =
        (⟨true, "invalid-video-id", none, none⟩, [])) ∧
    (jsTrim videoId ≠ "" → extensionEnabled = false →
      handleYouTubeVideoCheck videoId extensionEnabled channels apiKey videoInfoOf
          channelHandleOf =
        (⟨true, "extension-disabled", none, none⟩, [])) ∧
    (jsTrim videoId ≠ "" → extensionEnabled = true → normalizedEntriesOf channels = [] →
      handleYouTubeVideoCheck videoId extensionEnabled channels apiKey videoInfoOf
          channelHandleOf =
        (⟨true, "no-blocked-channels", none, none⟩, [])) ∧
    (jsTrim videoId ≠ "" → extensionEnabled = true → normalizedEntriesOf channels ≠ [] →
      apiKey = "" →
      handleYouTubeVideoCheck videoId extensionEnabled channels apiKey videoInfoOf
          channelHandleOf =
        (⟨true, "missing-api-key", none, none⟩, [])) ∧
    (∀ cid, ExternalCall.channelLookup cid ∈
        (handleYouTubeVideoCheck videoId extensionEnabled channels apiKey videoInfoOf
          channelHandleOf).2 →
      ∃ e ∈ normalizedEntriesOf channels, e.type = ChannelEntryType.handle) := by
  refine ⟨?_, ?_, ?_, ?_, ?_⟩
  · intro h
    simp [handleYouTubeVideoCheck, h]
  · intro h hd
    simp [handleYouTubeVideoCheck, h, hd]
  · intro h he hent
    simp [handleYouTubeVideoCheck, h, he, hent]
  · intro h he hent hk
    have hne : (normalizedEntriesOf channels).isEmpty = false := by
      simp [List.isEmpty_iff, hent]
    simp [handleYouTubeVideoCheck, h, he, hne, hk]
  · intro cid hmem
    unfold handleYouTubeVideoCheck at hmem
    by_cases h : jsTrim videoId = ""
    · simp [h] at hmem
    · have hb : (jsTrim videoId == "") = false := by simp [h]
      simp only [hb, Bool.false_eq_true, if_false] at hmem
      cases hd : extensionEnabled with
      | false => simp [hd] at hmem
      | true =>
        simp only [hd, Bool.not_true, Bool.false_eq_true, if_false] at hmem
        cases hent : (normalizedEntriesOf channels).isEmpty with
        | true => simp [hent] at hmem
        | false =>
          simp only [hent, Bool.false_eq_true, if_false] at hmem
          cases hk : (apiKey == "") with
          | true => simp [hk] at hmem
          | false =>
            simp only [hk, Bool.false_eq_true, if_false] at hmem
            cases hv : videoInfoOf (jsTrim videoId) with
            | none => simp [hv] at hmem
            | some owner =>
              simp only [hv] at hmem
              cases hneed : (normalizedEntriesOf channels).any
                  (fun e => e.type == ChannelEntryType.handle) with
              | false => simp [hneed] at hmem
              | true =>
                rw [List.any_eq_true] at hneed
                obtain ⟨e, hemem, hty⟩ := hneed
                exact ⟨e, hemem, by simpa using hty⟩

/-- Witness for claim C5 at a concrete instance. -/
theorem C5_video_check_short_circuits_witness :
    handleYouTubeVideoCheck "abc" false [] "" (fun _ => none) (fun _ => "") =
      (⟨true, "extension-disabled", none, none⟩, []) :=
  (C5_video_check_short_circuits "abc" false [] "" (fun _ => none) (fun _ => "")).2.1
    (by decide) rfl

/-! Lemmas on the de-duplicating filter and the indexed rule emitters,
leading to claim C1. -/

theorem string_data_inj {a b : String} (h : a.data = b.data) : a = b := by
  cases a with
  | mk da =>
    cases b with
    | mk db =>
      cases h
      rfl

theorem string_append_left_cancel {a b c : String} (h : a ++ b = a ++ c) : b = c := by
  have hd := congrArg String.data h
  rw [String.data_append, String.data_append] at hd
  have hb := congrArg (fun l => List.drop a.data.length l) hd
  simp only [List.drop_left] at hb
  exact string_data_inj hb

theorem string_beq_append_left (a b c : String) : (a ++ b == a ++ c) = (b == c) := by
  by_cases h : b = c
  · simp [h]
  · have hne : ¬(a ++ b = a ++ c) := fun hc => h (string_append_left_cancel hc)
    simp [h, hne]

theorem jsIndexOfFrom_append {x : String} {ys : List String} :
    ∀ (pre : List String) (acc : Int), x ∉ pre →
      jsIndexOfFrom x (pre ++ x :: ys) acc = acc + pre.length := by
  intro pre
  induction pre with
  | nil =>
    intro acc _
    simp [jsIndexOfFrom]
  | cons p ps ih =>
    intro acc hnot
    have hxp : x ≠ p := fun h => hnot (by simp [h])
    have hpx : (p == x) = false := beq_eq_false_iff_ne.mpr (Ne.symm hxp)
    have hstep : jsIndexOfFrom x ((p :: ps) ++ x :: ys) acc =
        jsIndexOfFrom x (ps ++ x :: ys) (acc + 1) := by
      show jsIndexOfFrom x (p :: (ps ++ x :: ys)) acc = _
      simp only [jsIndexOfFrom, hpx, Bool.false_eq_true, if_false]
    rw [hstep, ih (acc + 1) (fun h => hnot (List.mem_cons_of_mem p h))]
    simp only [List.length_cons]
    push_cast
    ring

theorem mem_of_mem_filterUniqueAux {arr : List String} :
    ∀ {xs : List String} {i : Nat} {x : String},
      x ∈ filterUniqueAux arr i xs → x ∈ xs ∧ x ≠ "" := by
  intro xs
  induction xs with
  | nil =>
    intro i x h
    simp [filterUniqueAux] at h
  | cons y ys ih =>
    intro i x h
    simp only [filterUniqueAux] at h
    by_cases hcond : (y != "" && jsIndexOf arr y == (i : Int)) = true
    · obtain ⟨hc1, hc2⟩ : (y != "") = true ∧ (jsIndexOf arr y == (i : Int)) = true := by
        simpa using hcond
      rw [if_pos hcond] at h
      rcases List.mem_cons.mp h with rfl | hh
      · exact ⟨List.mem_cons_self _ _, bne_iff_ne.mp hc1⟩
      · obtain ⟨h1, h2⟩ := ih hh
        exact ⟨List.mem_cons_of_mem _ h1, h2⟩
    · rw [if_neg hcond] at h
      obtain ⟨h1, h2⟩ := ih h
      exact ⟨List.mem_cons_of_mem _ h1, h2⟩

theorem indexOf_ge_of_mem_filterUniqueAux {arr : List String} :
    ∀ {xs : List String} {i : Nat} {x : String},
      x ∈ filterUniqueAux arr i xs → ∃ j : Nat, i ≤ j ∧ jsIndexOf arr x = (j : Int) := by
  intro xs
  induction xs with
  | nil =>
    intro i x h
    simp [filterUniqueAux] at h
  | cons y ys ih =>
    intro i x h
    simp only [filterUniqueAux] at h
    by_cases hcond : (y != "" && jsIndexOf arr y == (i : Int)) = true
    · obtain ⟨hc1, hc2⟩ : (y != "") = true ∧ (jsIndexOf arr y == (i : Int)) = true := by
        simpa using hcond
      rw [if_pos hcond] at h
      rcases List.mem_cons.mp h with rfl | hh
      · exact ⟨i, le_refl i, beq_iff_eq.mp hc2⟩
      · obtain ⟨j, hj, hdx⟩ := ih hh
        exact ⟨j, le_trans (Nat.le_succ i) hj, hdx⟩
    · rw [if_neg hcond] at h
      obtain ⟨j, hj, hdx⟩ := ih h
      exact ⟨j, le_trans (Nat.le_succ i) hj, hdx⟩

theorem nodup_filterUniqueAux {arr : List String} :
    ∀ (xs : List String) (i : Nat), (filterUniqueAux arr i xs).Nodup := by
  intro xs
  induction xs with
  | nil =>
    intro i
    simp [filterUniqueAux]
  | cons y ys ih =>
    intro i
    simp only [filterUniqueAux]
    by_cases hcond : (y != "" && jsIndexOf arr y == (i : Int)) = true
    · obtain ⟨hc1, hc2⟩ : (y != "") = true ∧ (jsIndexOf arr y == (i : Int)) = true := by
        simpa using hcond
      rw [if_pos hcond]
      refine List.nodup_cons.mpr ⟨?_, ih (i + 1)⟩
      intro hmem
      obtain ⟨j, hj, hdx⟩ := indexOf_ge_of_mem_filterUniqueAux hmem
      have hi : jsIndexOf arr y = (i : Int) := beq_iff_eq.mp hc2
      rw [hi] at hdx
      have : i = j := by exact_mod_cast hdx
      omega
    · rw [if_neg hcond]
      exact ih (i + 1)

theorem mem_filterUniqueAux_of {x : String} (hne : x ≠ "") :
    ∀ (xs pre : List String), x ∈ xs → x ∉ pre →
      x ∈ filterUniqueAux (pre ++ xs) pre.length xs := by
  intro xs
  induction xs with
  | nil =>
    intro pre hmem _
    simp at hmem
  | cons y ys ih =>
    intro pre hmem hpre
    by_cases hxy : x = y
    · subst hxy
      have hidx : jsIndexOf (pre ++ x :: ys) x = (pre.length : Int) := by
        unfold jsIndexOf
        rw [jsIndexOfFrom_append pre 0 hpre]
        simp
      have hcond : (x != "" && jsIndexOf (pre ++ x :: ys) x == (pre.length : Int)) = true := by
        simp [hne, hidx]
      simp only [filterUniqueAux, hcond, if_true]
      exact List.mem_cons_self _ _
    · have hmem2 : x ∈ ys := by
        rcases List.mem_cons.mp hmem with h | h
        · exact absurd h hxy
        · exact h
      have hpre2 : x ∉ pre ++ [y] := by
        simp only [List.mem_append, List.mem_singleton]
        rintro (h | h)
        · exact hpre h
        · exact hxy h
      have ihh := ih (pre ++ [y]) hmem2 hpre2
      rw [List.append_assoc] at ihh
      simp only [List.singleton_append, List.length_append, List.length_singleton] at ihh
      simp only [filterUniqueAux]
      by_cases hcond : (y != "" && jsIndexOf (pre ++ y :: ys) y == (pre.length : Int)) = true
      · rw [if_pos hcond]
        exact List.mem_cons_of_mem _ ihh
      · rw [if_neg hcond]
        exact ihh

theorem mem_filterUnique {arr : List String} {x : String} :
    x ∈ filterUnique arr ↔ x ∈ arr ∧ x ≠ "" := by
  constructor
  · exact mem_of_mem_filterUniqueAux
  · rintro ⟨h1, h2⟩
    have := mem_filterUniqueAux_of h2 arr [] h1 (by simp)
    simpa [filterUnique] using this

theorem nodup_filterUnique (arr : List String) : (filterUnique arr).Nodup :=
  nodup_filterUniqueAux arr 0

theorem length_filterUniqueAux_le {arr : List String} :
    ∀ (xs : List String) (i : Nat), (filterUniqueAux arr i xs).length ≤ xs.length := by
  intro xs
  induction xs with
  | nil =>
    intro i
    simp [filterUniqueAux]
  | cons y ys ih =>
    intro i
    simp only [filterUniqueAux]
    by_cases hcond : (y != "" && jsIndexOf arr y == (i : Int)) = true
    · rw [if_pos hcond]
      simpa using ih (i + 1)
    · rw [if_neg hcond]
      exact le_trans (ih (i + 1)) (Nat.le_succ _)

theorem length_filterUnique_le (arr : List String) : (filterUnique arr).length ≤ arr.length :=
  length_filterUniqueAux_le arr 0

theorem mem_forEachIdx {α β : Type} {f : Nat → α → β} :
    ∀ {l : List α} {i : Nat} {r : β}, r ∈ forEachIdx f i l →
      ∃ j x, i ≤ j ∧ j < i + l.length ∧ x ∈ l ∧ r = f j x := by
  intro l
  induction l with
  | nil =>
    intro i r h
    simp [forEachIdx] at h
  | cons y ys ih =>
    intro i r h
    simp only [forEachIdx] at h
    rcases List.mem_cons.mp h with rfl | hh
    · exact ⟨i, y, le_refl i, by simp, List.mem_cons_self _ _, rfl⟩
    · obtain ⟨j, x, hij, hjlt, hx, hr⟩ := ih hh
      refine ⟨j, x, le_trans (Nat.le_succ i) hij, by simp only [List.length_cons]; omega,
        List.mem_cons_of_mem _ hx, hr⟩

theorem countP_forEachIdx {α β : Type} {f : Nat → α → β} {pred : β → Bool} {q : α → Bool} :
    ∀ {l : List α} {i : Nat},
      (∀ j x, i ≤ j → j < i + l.length → x ∈ l → pred (f j x) = q x) →
      List.countP pred (forEachIdx f i l) = List.countP q l := by
  intro l
  induction l with
  | nil =>
    intro i _
    simp [forEachIdx]
  | cons y ys ih =>
    intro i hyp
    simp only [forEachIdx, List.countP_cons]
    rw [ih (fun j x hij hjlt hx =>
      hyp j x (le_trans (Nat.le_succ i) hij)
        (by simp only [List.length_cons]; omega) (List.mem_cons_of_mem _ hx))]
    rw [hyp i y (le_refl i) (by simp) (List.mem_cons_self _ _)]

/-- Claim C1: with the master switch on, compilation emits exactly one
block rule at priority BLOCK per distinct normalized blocked host; with
the social switch also on, exactly one domain-wide reddit block rule at
priority BLOCK plus exactly one allow rule at priority ALLOW per distinct
normalized allow-listed subreddit, ALLOW being numerically above BLOCK;
duplicate hosts and subreddits collapse to single rules. -/
theorem C1_rule_compilation (state : StoredState) (existingRules : List Rule)
    (hen : state.extensionEnabled = true)
    (hh : state.blockedHosts.length ≤ 10000) :
    (∀ r ∈ (updateAllRules state existingRules).addRules,
      r.id < RULE_OFFSETS_REDDIT_BLOCK →
      RULE_OFFSETS_BLOCKED_HOSTS ≤ r.id ∧ r.priority = RULE_PRIORITIES_BLOCK ∧
        r.action = RuleAction.block) ∧
    (∀ h : String, h ≠ "" →
      ((updateAllRules state existingRules).addRules.filter
          (fun r => decide (r.id < RULE_OFFSETS_REDDIT_BLOCK) &&
            (r.urlFilter == "||" ++ h))).length =
        if h ∈ state.blockedHosts.map (fun x => jsToLower (jsTrim x)) then 1 else 0) ∧
    (state.blockReddit = true →
      (updateAllRules state existingRules).addRules.filter
          (fun r => r.id == RULE_OFFSETS_REDDIT_BLOCK) = [createRedditBlockRule] ∧
      createRedditBlockRule.priority = RULE_PRIORITIES_BLOCK ∧
      createRedditBlockRule.action = RuleAction.block) ∧
    (state.blockReddit = false →
      (updateAllRules state existingRules).addRules.filter
          (fun r => decide (RULE_OFFSETS_REDDIT_BLOCK ≤ r.id)) = []) ∧
    (state.blockReddit = true →
      (∀ r ∈ (updateAllRules state existingRules).addRules,
        RULE_OFFSETS_ALLOWED_SUBREDDITS ≤ r.id →
        r.priority = RULE_PRIORITIES_ALLOW ∧ r.action = RuleAction.allow) ∧
      (∀ s : String, s ≠ "" →
        ((updateAllRules state existingRules).addRules.filter
            (fun r => decide (RULE_OFFSETS_ALLOWED_SUBREDDITS ≤ r.id) &&
              (r.urlFilter == "||reddit.com/r/" ++ s))).length =
          if s ∈ state.allowedSubreddits.map normalizeSubreddit then 1 else 0)) ∧
    RULE_PRIORITIES_BLOCK < RULE_PRIORITIES_ALLOW ∧
    (updateAllRules ⟨["x.com", "x.com"], [], false, true, []⟩ []).addRules =
      [⟨RULE_OFFSETS_BLOCKED_HOSTS, RULE_PRIORITIES_BLOCK, RuleAction.block, "||x.com"⟩] ∧
    (updateAllRules ⟨[], ["foo"], true, true, []⟩ []).addRules =
      [createRedditBlockRule,
        ⟨RULE_OFFSETS_ALLOWED_SUBREDDITS, RULE_PRIORITIES_ALLOW, RuleAction.allow,
          "||reddit.com/r/foo"⟩] := by
  have haddR : (updateAllRules state existingRules).addRules =
      appendBlockedHostRules state.blockedHosts ++
        (if state.blockReddit then
          createRedditBlockRule :: appendAllowedSubredditRules state.allowedSubreddits
        else []) := by
    simp [updateAllRules, hen]
  have hlenL : (blockedHostListOf state.blockedHosts).length ≤ 10000 := by
    refine le_trans (length_filterUnique_le _) (le_trans ?_ hh)
    rw [List.length_map]
    exact List.length_filter_le _ _
  have hostShape : ∀ r ∈ appendBlockedHostRules state.blockedHosts,
      ∃ j x, j < (blockedHostListOf state.blockedHosts).length ∧
        x ∈ blockedHostListOf state.blockedHosts ∧
        r = ⟨RULE_OFFSETS_BLOCKED_HOSTS + j, RULE_PRIORITIES_BLOCK, RuleAction.block,
          "||" ++ x⟩ := by
    intro r hr
    obtain ⟨j, x, hij, hjlt, hx, hrr⟩ := mem_forEachIdx hr
    exact ⟨j, x, by omega, hx, hrr⟩
  have allowShape : ∀ r ∈ appendAllowedSubredditRules state.allowedSubreddits,
      ∃ j x, r = ⟨RULE_OFFSETS_ALLOWED_SUBREDDITS + j, RULE_PRIORITIES_ALLOW,
        RuleAction.allow, "||reddit.com/r/" ++ x⟩ := by
    intro r hr
    obtain ⟨j, x, hij, hjlt, hx, hrr⟩ := mem_forEachIdx hr
    exact ⟨j, x, hrr⟩
  refine ⟨?_, ?_, ?_, ?_, ?_, by decide, by decide, by decide⟩
  · intro r hr hband
    rw [haddR] at hr
    rcases List.mem_append.mp hr with hhost | hrest
    · obtain ⟨j, x, hjlt, hx, rfl⟩ := hostShape r hhost
      refine ⟨Nat.le_add_right _ _, rfl, rfl⟩
    · exfalso
      rcases hbr : state.blockReddit with _ | _
      · rw [hbr] at hrest
        simp at hrest
      · rw [hbr] at hrest
        simp only [if_true] at hrest
        rcases List.mem_cons.mp hrest with rfl | hallow
        · simp [createRedditBlockRule, RULE_OFFSETS_REDDIT_BLOCK] at hband
        · obtain ⟨j, x, rfl⟩ := allowShape r hallow
          simp only [RULE_OFFSETS_ALLOWED_SUBREDDITS, RULE_OFFSETS_REDDIT_BLOCK] at hband
          omega
  · intro h hhne
    rw [haddR, ← List.countP_eq_length_filter, List.countP_append]
    have hhost : List.countP
        (fun r => decide (r.id < RULE_OFFSETS_REDDIT_BLOCK) && (r.urlFilter == "||" ++ h))
        (appendBlockedHostRules state.blockedHosts) =
        List.countP (fun x => x == h) (blockedHostListOf state.blockedHosts) := by
      unfold appendBlockedHostRules
      refine countP_forEachIdx ?_
      intro j x _ hjlt _
      have hjb : RULE_OFFSETS_BLOCKED_HOSTS + j < RULE_OFFSETS_REDDIT_BLOCK := by
        simp only [RULE_OFFSETS_BLOCKED_HOSTS, RULE_OFFSETS_REDDIT_BLOCK]
        omega
      rw [string_beq_append_left]
      simp [hjb]
    have hrest : List.countP
        (fun r => decide (r.id < RULE_OFFSETS_REDDIT_BLOCK) && (r.urlFilter == "||" ++ h))
        (if state.blockReddit then
          createRedditBlockRule :: appendAllowedSubredditRules state.allowedSubreddits
        else []) = 0 := by
      rcases hbr : state.blockReddit with _ | _
      · simp
      · simp only [if_true]
        rw [List.countP_cons]
        have h1 : List.countP
            (fun r => decide (r.id < RULE_OFFSETS_REDDIT_BLOCK) && (r.urlFilter == "||" ++ h))
            (appendAllowedSubredditRules state.allowedSubreddits) = 0 := by
          rw [List.countP_eq_zero]
          intro r hr
          obtain ⟨j, x, rfl⟩ := allowShape r hr
          simp only [RULE_OFFSETS_ALLOWED_SUBREDDITS, RULE_OFFSETS_REDDIT_BLOCK,
            Bool.and_eq_true, decide_eq_true_eq, not_and]
          intro hlt
          exact absurd hlt (by omega)
        rw [h1]
        simp [createRedditBlockRule, RULE_OFFSETS_REDDIT_BLOCK]
    rw [hhost, hrest]
    have hmemL : h ∈ blockedHostListOf state.blockedHosts ↔
        h ∈ state.blockedHosts.map (fun x => jsToLower (jsTrim x)) := by
      rw [blockedHostListOf, mem_filterUnique]
      simp only [List.mem_map, List.mem_filter, bne_iff_ne]
      constructor
      · rintro ⟨⟨x, ⟨hx, _⟩, hnx⟩, _⟩
        exact ⟨x, hx, hnx⟩
      · rintro ⟨x, hx, hnx⟩
        have hxne : x ≠ "" := by
          intro hx0
          rw [hx0] at hnx
          have hempty : ("" : String) = h := hnx
          exact hhne hempty.symm
        exact ⟨⟨x, ⟨hx, hxne⟩, hnx⟩, hhne⟩
    show List.count h (blockedHostListOf state.blockedHosts) + 0 = _
    rw [Nat.add_zero]
    by_cases hmem : h ∈ blockedHostListOf state.blockedHosts
    · rw [if_pos (hmemL.mp hmem)]
      exact List.count_eq_one_of_mem (nodup_filterUnique _) hmem
    · rw [if_neg (fun hc => hmem (hmemL.mpr hc))]
      exact List.count_eq_zero_of_not_mem hmem
  · intro hbr
    refine ⟨?_, rfl, rfl⟩
    rw [haddR, hbr, if_pos rfl, List.filter_append]
    have h1 : (appendBlockedHostRules state.blockedHosts).filter
        (fun r => r.id == RULE_OFFSETS_REDDIT_BLOCK) = [] := by
      rw [List.filter_eq_nil]
      intro r hr
      obtain ⟨j, x, hjlt, _, rfl⟩ := hostShape r hr
      have : 10000 + j ≠ 20000 := by omega
      simp [RULE_OFFSETS_BLOCKED_HOSTS, RULE_OFFSETS_REDDIT_BLOCK, this]
    have h2 : (appendAllowedSubredditRules state.allowedSubreddits).filter
        (fun r => r.id == RULE_OFFSETS_REDDIT_BLOCK) = [] := by
      rw [List.filter_eq_nil]
      intro r hr
      obtain ⟨j, x, rfl⟩ := allowShape r hr
      have : 30000 + j ≠ 20000 := by omega
      simp [RULE_OFFSETS_ALLOWED_SUBREDDITS, RULE_OFFSETS_REDDIT_BLOCK, this]
    rw [h1, List.filter_cons]
    simp only [createRedditBlockRule]
    rw [h2]
    simp
  · intro hbr
    rw [haddR, hbr, if_neg (by simp), List.append_nil, List.filter_eq_nil]
    intro r hr
    obtain ⟨j, x, hjlt, _, rfl⟩ := hostShape r hr
    have : ¬(20000 ≤ 10000 + j) := by omega
    simp [RULE_OFFSETS_BLOCKED_HOSTS, RULE_OFFSETS_REDDIT_BLOCK, this]
  · intro hbr
    constructor
    · intro r hr hband
      rw [haddR, hbr, if_pos rfl] at hr
      rcases List.mem_append.mp hr with hhost | hrest
      · obtain ⟨j, x, hjlt, _, rfl⟩ := hostShape r hhost
        exfalso
        simp only [RULE_OFFSETS_BLOCKED_HOSTS, RULE_OFFSETS_ALLOWED_SUBREDDITS] at hband
        omega
      · rcases List.mem_cons.mp hrest with rfl | hallow
        · exfalso
          simp only [createRedditBlockRule, RULE_OFFSETS_REDDIT_BLOCK,
            RULE_OFFSETS_ALLOWED_SUBREDDITS] at hband
          omega
        · obtain ⟨j, x, rfl⟩ := allowShape r hallow
          exact ⟨rfl, rfl⟩
    · intro s hsne
      rw [haddR, hbr, if_pos rfl, ← List.countP_eq_length_filter, List.countP_append,
        List.countP_cons]
      have h1 : List.countP
          (fun r => decide (RULE_OFFSETS_ALLOWED_SUBREDDITS ≤ r.id) &&
            (r.urlFilter == "||reddit.com/r/" ++ s))
          (appendBlockedHostRules state.blockedHosts) = 0 := by
        rw [List.countP_eq_zero]
        intro r hr
        obtain ⟨j, x, hjlt, _, rfl⟩ := hostShape r hr
        have : ¬(30000 ≤ 10000 + j) := by omega
        simp [RULE_OFFSETS_BLOCKED_HOSTS, RULE_OFFSETS_ALLOWED_SUBREDDITS, this]
      have h2 : List.countP
          (fun r => decide (RULE_OFFSETS_ALLOWED_SUBREDDITS ≤ r.id) &&
            (r.urlFilter == "||reddit.com/r/" ++ s))
          (appendAllowedSubredditRules state.allowedSubreddits) =
          List.countP (fun x => x == s)
            (allowedSubredditListOf state.allowedSubreddits) := by
        unfold appendAllowedSubredditRules
        refine countP_forEachIdx ?_
        intro j x _ _ _
        have hj : RULE_OFFSETS_ALLOWED_SUBREDDITS ≤ RULE_OFFSETS_ALLOWED_SUBREDDITS + j :=
          Nat.le_add_right _ _
        rw [string_beq_append_left]
        simp [hj]
      rw [h1, h2]
      have h3 : (decide (RULE_OFFSETS_ALLOWED_SUBREDDITS ≤ createRedditBlockRule.id) &&
          (createRedditBlockRule.urlFilter == "||reddit.com/r/" ++ s)) = false := by
        simp [createRedditBlockRule, RULE_OFFSETS_ALLOWED_SUBREDDITS,
          RULE_OFFSETS_REDDIT_BLOCK]
      rw [h3]
      simp only [Bool.false_eq_true, if_false, add_zero, Nat.zero_add]
      have hmemL : s ∈ allowedSubredditListOf state.allowedSubreddits ↔
          s ∈ state.allowedSubreddits.map normalizeSubreddit := by
        rw [allowedSubredditListOf, mem_filterUnique]
        simp only [List.mem_map, List.mem_filter, bne_iff_ne]
        constructor
        · rintro ⟨⟨x, ⟨hx, _⟩, hnx⟩, _⟩
          exact ⟨x, hx, hnx⟩
        · rintro ⟨x, hx, hnx⟩
          have hxne : x ≠ "" := by
            intro hx0
            rw [hx0] at hnx
            have hempty : ("" : String) = s := hnx
            exact hsne hempty.symm
          exact ⟨⟨x, ⟨hx, hxne⟩, hnx⟩, hsne⟩
      show List.count s (allowedSubredditListOf state.allowedSubreddits) = _
      by_cases hmem : s ∈ allowedSubredditListOf state.allowedSubreddits
      · rw [if_pos (hmemL.mp hmem)]
        exact List.count_eq_one_of_mem (nodup_filterUnique _) hmem
      · rw [if_neg (fun hc => hmem (hmemL.mpr hc))]
        exact List.count_eq_zero_of_not_mem hmem

/-- Witness for claim C1 at a concrete instance. -/
theorem C1_rule_compilation_witness :
    ((updateAllRules ⟨["x.com", "x.com"], [], false, true, []⟩ []).addRules.filter
        (fun r => decide (r.id < RULE_OFFSETS_REDDIT_BLOCK) &&
          (r.urlFilter == "||" ++ "x.com"))).length = 1 := by
  have h := (C1_rule_compilation ⟨["x.com", "x.com"], [], false, true, []⟩ [] rfl
    (by decide)).2.1 "x.com" (by decide)
  rw [h]
  decide

/-! Lemmas on the embedded JS Map and the cache pruning loop, leading to
claim C7. -/

theorem mapGet_cons_of_eq {α : Type} {p : String × α} {m : List (String × α)} {k : String}
    (h : p.1 = k) : mapGet (p :: m) k = some p.2 := by
  simp [mapGet, List.find?_cons_of_pos, h]

theorem mapGet_cons_of_ne {α : Type} {p : String × α} {m : List (String × α)} {k : String}
    (h : p.1 ≠ k) : mapGet (p :: m) k = mapGet m k := by
  have hb : (p.1 == k) = false := beq_eq_false_iff_ne.mpr h
  simp [mapGet, List.find?_cons, hb]

theorem find?_mapSet_map {α : Type} (m : List (String × α)) (k : String) (v : α) :
    (m.map (fun q => if q.1 == k then (k, v) else q)).find? (fun q => q.1 == k) =
      if m.any (fun q => q.1 == k) then some (k, v) else none := by
  induction m with
  | nil => simp
  | cons p rest ih =>
    by_cases hp : p.1 = k
    · have hb : (p.1 == k) = true := beq_iff_eq.mpr hp
      have hifp : (if (p.1 == k) = true then (k, v) else p) = (k, v) := if_pos hb
      have hfind : List.find? (fun q : String × α => q.1 == k)
          ((k, v) :: rest.map (fun q => if q.1 == k then (k, v) else q)) = some (k, v) :=
        List.find?_cons_of_pos _ (by simp)
      rw [List.map_cons, hifp, hfind, List.any_cons, hb, Bool.true_or, if_pos rfl]
    · have hb : (p.1 == k) = false := beq_eq_false_iff_ne.mpr hp
      have hifp : (if (p.1 == k) = true then (k, v) else p) = p := by
        rw [hb]
        simp
      have hfind : List.find? (fun q : String × α => q.1 == k)
          (p :: rest.map (fun q => if q.1 == k then (k, v) else q)) =
          List.find? (fun q : String × α => q.1 == k)
            (rest.map (fun q => if q.1 == k then (k, v) else q)) :=
        List.find?_cons_of_neg _ (by simp [hb])
      rw [List.map_cons, hifp, hfind, ih, List.any_cons, hb, Bool.false_or]

theorem find?_append_of_none {α : Type} {m : List (String × α)} {k : String} (v : α)
    (h : m.any (fun q => q.1 == k) = false) :
    (m ++ [(k, v)]).find? (fun q => q.1 == k) = some (k, v) := by
  induction m with
  | nil => simp [List.find?_cons_of_pos]
  | cons p rest ih =>
    simp only [List.any_cons, Bool.or_eq_false_iff] at h
    rw [List.cons_append, List.find?_cons_of_neg _ (by simp [h.1])]
    exact ih h.2

theorem mapGet_mapSet_self {α : Type} (m : List (String × α)) (k : String) (v : α) :
    mapGet (mapSet m k v) k = some v := by
  unfold mapSet
  by_cases hany : m.any (fun q => q.1 == k) = true
  · rw [if_pos hany]
    unfold mapGet
    rw [find?_mapSet_map, if_pos hany]
  · have hany2 : m.any (fun q => q.1 == k) = false := by
      cases h : m.any (fun q => q.1 == k)
      · rfl
      · exact absurd h hany
    rw [if_neg hany]
    unfold mapGet
    rw [find?_append_of_none v hany2]

theorem any_eq_false_of_mapGet_none {α : Type} {m : List (String × α)} {k : String}
    (h : mapGet m k = none) : m.any (fun q => q.1 == k) = false := by
  unfold mapGet at h
  cases hf : m.find? (fun q => q.1 == k) with
  | some p => rw [hf] at h; exact absurd h (by simp)
  | none =>
    rw [List.any_eq_false]
    exact fun x hx => List.find?_eq_none.mp hf x hx

theorem length_mapSet {α : Type} (m : List (String × α)) (k : String) (v : α) :
    (mapSet m k v).length =
      if m.any (fun q => q.1 == k) then m.length else m.length + 1 := by
  unfold mapSet
  split
  · simp
  · simp

theorem keys_mapDelete {α : Type} (m : List (String × α)) (k : String) :
    (mapDelete m k).map Prod.fst = (m.map Prod.fst).filter (fun s => s != k) := by
  induction m with
  | nil => rfl
  | cons p rest ih =>
    simp only [mapDelete, List.filter_cons, List.map_cons]
    by_cases hp : (p.1 != k) = true
    · simp only [hp, if_true, List.map_cons]
      rw [← ih]
      rfl
    · have hp2 : (p.1 != k) = false := by
        cases h : (p.1 != k)
        · rfl
        · exact absurd h hp
      simp only [hp2, Bool.false_eq_true, if_false]
      rw [← ih]
      rfl

theorem mem_mapDelete_iff {α : Type} {m : List (String × α)} {k : String}
    {x : String × α} : x ∈ mapDelete m k ↔ x ∈ m ∧ x.1 ≠ k := by
  unfold mapDelete
  rw [List.mem_filter]
  exact and_congr_right fun _ => bne_iff_ne

theorem mapDelete_eq_self_of_not_mem {α : Type} {m : List (String × α)} {k : String}
    (h : k ∉ m.map Prod.fst) : mapDelete m k = m := by
  unfold mapDelete
  rw [List.filter_eq_self]
  intro p hp
  have : p.1 ≠ k := fun he => h (he ▸ List.mem_map_of_mem Prod.fst hp)
  simp [this]

theorem length_mapDelete_of_mem {α : Type} :
    ∀ {m : List (String × α)} {k : String}, (m.map Prod.fst).Nodup →
      k ∈ m.map Prod.fst → (mapDelete m k).length = m.length - 1 := by
  intro m
  induction m with
  | nil =>
    intro k _ hmem
    simp at hmem
  | cons p rest ih =>
    intro k hnd hmem
    rw [List.map_cons] at hnd hmem
    have hnd2 := List.nodup_cons.mp hnd
    rcases List.mem_cons.mp hmem with heq | hmem2
    · have hb : (p.1 != k) = false := by simp [heq.symm]
      have hrest : mapDelete rest k = rest :=
        mapDelete_eq_self_of_not_mem (fun hc => hnd2.1 (heq ▸ hc))
      simp only [mapDelete, List.filter_cons, hb, Bool.false_eq_true, if_false]
      have hr2 : (mapDelete rest k).length = rest.length := by rw [hrest]
      simp only [mapDelete] at hr2
      simp [hr2]
    · have hne : p.1 ≠ k := by
        intro he
        exact hnd2.1 (he ▸ hmem2)
      have hb : (p.1 != k) = true := bne_iff_ne.mpr hne
      have hlen : 0 < rest.length := by
        rcases List.mem_map.mp hmem2 with ⟨q, hq, _⟩
        rcases rest with _ | ⟨r, rs⟩
        · simp at hq
        · simp
      have hih := ih hnd2.2 hmem2
      simp only [mapDelete, List.filter_cons, hb, if_true, List.length_cons]
      simp only [mapDelete] at hih
      omega

theorem evictOldest_subset {α : Type} (maxE : Nat) :
    ∀ (l cache : List (String × CacheEntry α)) (x : String × CacheEntry α),
      x ∈ evictOldest maxE cache l → x ∈ cache := by
  intro l
  induction l with
  | nil =>
    intro cache x h
    simpa [evictOldest] using h
  | cons t rest ih =>
    intro cache x h
    rcases t with ⟨k, e⟩
    simp only [evictOldest] at h
    by_cases hlen : cache.length > maxE
    · rw [if_pos hlen] at h
      exact (mem_mapDelete_iff.mp (ih _ x h)).1
    · rw [if_neg hlen] at h
      exact h

theorem evictOldest_length {α : Type} (maxE : Nat) :
    ∀ (l cache : List (String × CacheEntry α)),
      (cache.map Prod.fst).Nodup → (l.map Prod.fst).Nodup →
      (∀ k ∈ l.map Prod.fst, k ∈ cache.map Prod.fst) →
      (evictOldest maxE cache l).length =
        if cache.length ≤ maxE then cache.length
        else if maxE ≤ cache.length - l.length then cache.length - l.length
        else maxE := by
  intro l
  induction l with
  | nil =>
    intro cache _ _ _
    simp only [evictOldest, List.length_nil, Nat.sub_zero]
    by_cases hle : cache.length ≤ maxE
    · rw [if_pos hle]
    · rw [if_neg hle, if_pos (by omega)]
  | cons t rest ih =>
    intro cache hndc hndl hsub
    rcases t with ⟨k, e⟩
    simp only [evictOldest]
    by_cases hlen : cache.length > maxE
    · rw [if_pos hlen]
      have hkmem : k ∈ cache.map Prod.fst := hsub k (by simp)
      have hdel : (mapDelete cache k).length = cache.length - 1 :=
        length_mapDelete_of_mem hndc hkmem
      have hndc2 : ((mapDelete cache k).map Prod.fst).Nodup := by
        rw [keys_mapDelete]
        exact hndc.filter _
      rw [List.map_cons] at hndl
      have hndl2 := List.nodup_cons.mp hndl
      have hsub2 : ∀ k2 ∈ rest.map Prod.fst, k2 ∈ (mapDelete cache k).map Prod.fst := by
        intro k2 hk2
        rw [keys_mapDelete, List.mem_filter]
        refine ⟨hsub k2 (by simp [hk2]), ?_⟩
        have : k2 ≠ k := fun h => hndl2.1 (h ▸ hk2)
        simp [this]
      rw [ih _ hndc2 hndl2.2 hsub2, hdel]
      simp only [List.length_cons]
      have hgt : ¬cache.length ≤ maxE := by omega
      rw [if_neg hgt]
      have heq : cache.length - 1 - rest.length = cache.length - (rest.length + 1) := by
        omega
      by_cases hle2 : cache.length - 1 ≤ maxE
      · rw [if_pos hle2]
        by_cases hc : maxE ≤ cache.length - (rest.length + 1)
        · rw [if_pos hc]
          omega
        · rw [if_neg hc]
          omega
      · rw [if_neg hle2, heq]
    · rw [if_neg hlen]
      have h1 : cache.length ≤ maxE := by omega
      rw [if_pos h1]

theorem tsLe_sorted {α : Type} (cache : List (String × CacheEntry α)) :
    List.Pairwise (fun a b : String × CacheEntry α => a.2.timestamp ≤ b.2.timestamp)
      (cache.mergeSort tsLe) := by
  have h : List.Pairwise (fun a b => tsLe a b = true) (cache.mergeSort tsLe) :=
    List.sorted_mergeSort
      (fun a b c hab hbc => by
        simp only [tsLe, decide_eq_true_eq] at hab hbc ⊢
        omega)
      (fun a b => by
        simp only [tsLe, Bool.or_eq_true, decide_eq_true_eq]
        omega)
      cache
  exact h.imp (fun hab => by
    simpa only [tsLe, decide_eq_true_eq] using hab)

theorem evictOldest_oldest_first {α : Type} (maxE : Nat) :
    ∀ (l cache : List (String × CacheEntry α)),
      (cache.map Prod.fst).Nodup → (l.map Prod.fst).Nodup →
      (∀ x ∈ cache, x ∈ l) →
      List.Pairwise (fun a b : String × CacheEntry α => a.2.timestamp ≤ b.2.timestamp) l →
      ∀ p ∈ cache, p ∉ evictOldest maxE cache l →
        ∀ q ∈ evictOldest maxE cache l, p.2.timestamp ≤ q.2.timestamp := by
  intro l
  induction l with
  | nil =>
    intro cache _ _ _ _ p hp hnp q hq
    simp only [evictOldest] at hnp
    exact absurd hp hnp
  | cons t rest ih =>
    intro cache hndc hndl hsub hpw p hp hnp q hq
    rcases t with ⟨k, e⟩
    simp only [evictOldest] at hnp hq
    by_cases hlen : cache.length > maxE
    · rw [if_pos hlen] at hnp hq
      have hpw2 := List.pairwise_cons.mp hpw
      rw [List.map_cons] at hndl
      have hndl2 := List.nodup_cons.mp hndl
      have hndc2 : ((mapDelete cache k).map Prod.fst).Nodup := by
        rw [keys_mapDelete]
        exact hndc.filter _
      have hsub2 : ∀ x ∈ mapDelete cache k, x ∈ rest := by
        intro x hx
        obtain ⟨hxc, hxk⟩ := mem_mapDelete_iff.mp hx
        rcases List.mem_cons.mp (hsub x hxc) with heq | hxr
        · exact absurd (congrArg Prod.fst heq) hxk
        · exact hxr
      by_cases hpd : p ∈ mapDelete cache k
      · exact ih _ hndc2 hndl2.2 hsub2 hpw2.2 p hpd hnp q hq
      · have hpk : p.1 = k := by
          by_cases hpk : p.1 = k
          · exact hpk
          · exact absurd (mem_mapDelete_iff.mpr ⟨hp, hpk⟩) hpd
        have hpe : p = (k, e) := by
          rcases List.mem_cons.mp (hsub p hp) with heq | hpr
          · exact heq
          · have hkmem2 : k ∈ rest.map Prod.fst := by
              rw [← hpk]
              exact List.mem_map_of_mem Prod.fst hpr
            exact absurd hkmem2 hndl2.1
        have hqd : q ∈ mapDelete cache k := evictOldest_subset maxE rest _ q hq
        have hqr : q ∈ rest := hsub2 q hqd
        rw [hpe]
        exact hpw2.1 q hqr
    · rw [if_neg hlen] at hnp
      exact absurd hp hnp

theorem pruneCache_length {α : Type} (maxE : Nat)
    (cache : List (String × CacheEntry α)) (hnd : (cache.map Prod.fst).Nodup) :
    (pruneCache maxE cache).length =
      if cache.length ≤ maxE then cache.length else maxE := by
  unfold pruneCache
  by_cases hle : cache.length ≤ maxE
  · rw [if_pos hle, if_pos hle]
  · rw [if_neg hle, if_neg hle]
    have hperm : (cache.mergeSort tsLe).Perm cache := List.mergeSort_perm cache tsLe
    have hpermk : ((cache.mergeSort tsLe).map Prod.fst).Perm (cache.map Prod.fst) :=
      hperm.map Prod.fst
    have hnd2 : ((cache.mergeSort tsLe).map Prod.fst).Nodup := hpermk.nodup_iff.mpr hnd
    have hsub : ∀ k ∈ (cache.mergeSort tsLe).map Prod.fst, k ∈ cache.map Prod.fst :=
      fun k hk => hpermk.mem_iff.mp hk
    rw [evictOldest_length maxE _ _ hnd hnd2 hsub, hperm.length_eq]
    have hgt : ¬cache.length ≤ maxE := hle
    rw [if_neg hgt, Nat.sub_self]
    split
    · omega
    · rfl

theorem pruneCache_oldest_first {α : Type} (maxE : Nat)
    (cache : List (String × CacheEntry α)) (hnd : (cache.map Prod.fst).Nodup) :
    ∀ p ∈ cache, p ∉ pruneCache maxE cache →
      ∀ q ∈ pruneCache maxE cache, p.2.timestamp ≤ q.2.timestamp := by
  unfold pruneCache
  by_cases hle : cache.length ≤ maxE
  · rw [if_pos hle]
    intro p hp hnp
    exact absurd hp hnp
  · rw [if_neg hle]
    have hperm : (cache.mergeSort tsLe).Perm cache := List.mergeSort_perm cache tsLe
    have hpermk : ((cache.mergeSort tsLe).map Prod.fst).Perm (cache.map Prod.fst) :=
      hperm.map Prod.fst
    exact evictOldest_oldest_first maxE _ _ hnd (hpermk.nodup_iff.mpr hnd)
      (fun x hx => hperm.mem_iff.mpr hx) (tsLe_sorted cache)

theorem keys_mapSet_nodup {α : Type} (m : List (String × α)) (k : String) (v : α)
    (hnd : (m.map Prod.fst).Nodup) : ((mapSet m k v).map Prod.fst).Nodup := by
  unfold mapSet
  by_cases hany : m.any (fun q => q.1 == k) = true
  · rw [if_pos hany]
    have heq : (m.map (fun q => if q.1 == k then (k, v) else q)).map Prod.fst =
        m.map Prod.fst := by
      rw [List.map_map]
      refine List.map_congr_left ?_
      intro p _
      by_cases hp : p.1 = k
      · simp [hp]
      · simp [hp]
    rw [heq]
    exact hnd
  · have hany2 : m.any (fun q => q.1 == k) = false := by
      cases h : m.any (fun q => q.1 == k)
      · rfl
      · exact absurd h hany
    rw [if_neg hany, List.map_append]
    rw [List.nodup_append]
    refine ⟨hnd, by simp, ?_⟩
    intro a ha hb
    simp only [List.map_cons, List.map_nil, List.mem_singleton] at hb
    subst hb
    rw [List.any_eq_false] at hany2
    obtain ⟨p, hp, hfp⟩ := List.mem_map.mp ha
    exact hany2 p hp (by simp [hfp])

/-- Claim C7: for both lookup caches a fresh cached entry (younger than the
TTL) is returned, null included, with no lookup issued; an entry at or past
its TTL is treated as absent (a lookup is issued); two resolutions of the
same video id within the TTL window issue exactly one lookup; and pruning
caps each cache at its maximum entry count, evicting oldest timestamps
first. -/
theorem C7_ttl_caches :
    (∀ (cache : List (String × CacheEntry (Option VideoInfo)))
        (now : Nat) (vid : String) (entry : CacheEntry (Option VideoInfo))
        (res : Option VideoInfo),
      mapGet cache vid = some entry → now - entry.timestamp < YOUTUBE_CACHE_TTL_MS →
      fetchYouTubeVideoInfo cache now vid res = (entry.data, cache, false)) ∧
    (∀ (cache : List (String × CacheEntry (Option VideoInfo)))
        (now : Nat) (vid : String) (entry : CacheEntry (Option VideoInfo))
        (res : Option VideoInfo),
      mapGet cache vid = some entry → YOUTUBE_CACHE_TTL_MS ≤ now - entry.timestamp →
      (fetchYouTubeVideoInfo cache now vid res).2.2 = true) ∧
    (∀ (cache : List (String × CacheEntry (Option HandleRec)))
        (now : Nat) (cid : String) (entry : CacheEntry (Option HandleRec)) (h : String),
      jsTrim cid ≠ "" → mapGet cache (jsTrim cid) = some entry →
      now - entry.timestamp < YOUTUBE_CHANNEL_CACHE_TTL_MS →
      fetchYouTubeChannelInfo cache now cid h = (entry.data, cache, false)) ∧
    (∀ (cache : List (String × CacheEntry (Option HandleRec)))
        (now : Nat) (cid : String) (entry : CacheEntry (Option HandleRec)) (h : String),
      jsTrim cid ≠ "" → mapGet cache (jsTrim cid) = some entry →
      YOUTUBE_CHANNEL_CACHE_TTL_MS ≤ now - entry.timestamp →
      (fetchYouTubeChannelInfo cache now cid h).2.2 = true) ∧
    (∀ (cache : List (String × CacheEntry (Option VideoInfo)))
        (now1 now2 : Nat) (vid : String) (res1 res2 : Option VideoInfo),
      mapGet cache vid = none → cache.length < 100 →
      now2 - now1 < YOUTUBE_CACHE_TTL_MS →
      (fetchYouTubeVideoInfo cache now1 vid res1).2.2 = true ∧
      fetchYouTubeVideoInfo (fetchYouTubeVideoInfo cache now1 vid res1).2.1 now2 vid res2 =
        (res1, (fetchYouTubeVideoInfo cache now1 vid res1).2.1, false)) ∧
    (∀ cache : List (String × CacheEntry (Option VideoInfo)),
      (cache.map Prod.fst).Nodup →
      (pruneYouTubeVideoCache cache).length =
        (if cache.length ≤ 100 then cache.length else 100) ∧
      (∀ p ∈ cache, p ∉ pruneYouTubeVideoCache cache →
        ∀ q ∈ pruneYouTubeVideoCache cache, p.2.timestamp ≤ q.2.timestamp)) ∧
    (∀ cache : List (String × CacheEntry (Option HandleRec)),
      (cache.map Prod.fst).Nodup →
      (pruneYouTubeChannelCache cache).length =
        (if cache.length ≤ 200 then cache.length else 200) ∧
      (∀ p ∈ cache, p ∉ pruneYouTubeChannelCache cache →
        ∀ q ∈ pruneYouTubeChannelCache cache, p.2.timestamp ≤ q.2.timestamp)) ∧
    (∀ (cache : List (String × CacheEntry (Option VideoInfo)))
        (now : Nat) (vid : String) (res : Option VideoInfo),
      (cache.map Prod.fst).Nodup → cache.length ≤ 100 →
      (fetchYouTubeVideoInfo cache now vid res).2.1.length ≤ 100) := by
  refine ⟨?_, ?_, ?_, ?_, ?_, ?_, ?_, ?_⟩
  · intro cache now vid entry res hget hlt
    unfold fetchYouTubeVideoInfo
    rw [hget]
    simp [hlt]
  · intro cache now vid entry res hget hge
    unfold fetchYouTubeVideoInfo
    rw [hget]
    have : ¬(now - entry.timestamp < YOUTUBE_CACHE_TTL_MS) := by omega
    simp [this]
  · intro cache now cid entry h hne hget hlt
    have hb : (jsTrim cid == "") = false := by simp [hne]
    simp [fetchYouTubeChannelInfo, hb, hget, hlt]
  · intro cache now cid entry h hne hget hge
    have hb : (jsTrim cid == "") = false := by simp [hne]
    have hnlt : ¬(now - entry.timestamp < YOUTUBE_CHANNEL_CACHE_TTL_MS) := by omega
    simp [fetchYouTubeChannelInfo, hb, hget, hnlt]
  · intro cache now1 now2 vid res1 res2 hget hlen httl
    have hany := any_eq_false_of_mapGet_none hget
    have hset_len : (mapSet cache vid ⟨now1, res1⟩).length = cache.length + 1 := by
      rw [length_mapSet, hany]
      simp
    have hprune : pruneYouTubeVideoCache (mapSet cache vid ⟨now1, res1⟩) =
        mapSet cache vid ⟨now1, res1⟩ := by
      unfold pruneYouTubeVideoCache pruneCache
      rw [if_pos (by omega)]
    have hfirst : fetchYouTubeVideoInfo cache now1 vid res1 =
        (res1, mapSet cache vid ⟨now1, res1⟩, true) := by
      unfold fetchYouTubeVideoInfo
      rw [hget, hprune]
    refine ⟨by rw [hfirst], ?_⟩
    rw [hfirst]
    unfold fetchYouTubeVideoInfo
    rw [mapGet_mapSet_self]
    simp [httl]
  · intro cache hnd
    exact ⟨pruneCache_length 100 cache hnd, pruneCache_oldest_first 100 cache hnd⟩
  · intro cache hnd
    exact ⟨pruneCache_length 200 cache hnd, pruneCache_oldest_first 200 cache hnd⟩
  · intro cache now vid res hnd hlen
    unfold fetchYouTubeVideoInfo
    cases hget : mapGet cache vid with
    | some entry =>
      by_cases hlt : now - entry.timestamp < YOUTUBE_CACHE_TTL_MS
      · simp only [hlt, if_true]
        exact hlen
      · simp only [hlt, if_false]
        have hnd2 := keys_mapSet_nodup cache vid ⟨now, res⟩ hnd
        have hpl := pruneCache_length 100 (mapSet cache vid ⟨now, res⟩) hnd2
        unfold pruneYouTubeVideoCache
        rw [hpl]
        split
        · next hc => exact hc
        · omega
    | none =>
      have hnd2 := keys_mapSet_nodup cache vid ⟨now, res⟩ hnd
      have hpl := pruneCache_length 100 (mapSet cache vid ⟨now, res⟩) hnd2
      unfold pruneYouTubeVideoCache
      rw [hpl]
      split
      · next hc => exact hc
      · omega

/-- Witness for claim C7 at a concrete instance. -/
theorem C7_ttl_caches_witness :
    fetchYouTubeVideoInfo [("v", ⟨1000, none⟩)] 2000 "v" (some ⟨"c", "t"⟩) =
      (none, [("v", ⟨1000, none⟩)], false) :=
  C7_ttl_caches.1 [("v", ⟨1000, none⟩)] 2000 "v" ⟨1000, none⟩ (some ⟨"c", "t"⟩)
    (by decide) (by decide)

end Maxprod
